import Mathlib

/-
  Verification development for the agent-core-go repository.

  Go strings are modelled as lists of characters (`GoStr`), faithful for the
  ASCII data these functions handle (tool names, allowlist patterns, ids).
  Go byte lengths coincide with character counts on ASCII input.
-/

set_option maxRecDepth 4000

namespace AgentCore

/-- A Go `string`, modelled as its list of characters. -/
abbrev GoStr := List Char

/-- `unicode.IsSpace` on the ASCII range, as used by `strings.TrimSpace`. -/
def isSpaceChar (c : Char) : Bool :=
  c = ' ' || c = '\t' || c = '\n' || c = '\x0b' || c = '\x0c' || c = '\r'

/-- Characters of the cutset in `strings.Trim(pattern, "\x22\x27")` from
`normalizeAllowedPattern` and `parseAllowedToolsValue`. -/
def isQuoteChar (c : Char) : Bool :=
  c = '"' || c = '\''

/-- Drop leading characters satisfying `p` (left half of `strings.Trim*`). -/
def trimLeftBy (p : Char → Bool) (s : GoStr) : GoStr :=
  s.dropWhile p

/-- Drop trailing characters satisfying `p` (right half of `strings.Trim*`). -/
def trimRightBy (p : Char → Bool) (s : GoStr) : GoStr :=
  (s.reverse.dropWhile p).reverse

/-- `strings.TrimSpace` (ASCII whitespace). -/
def goTrimSpace (s : GoStr) : GoStr :=
  trimRightBy isSpaceChar (trimLeftBy isSpaceChar s)

/-- `strings.Trim(s, "\x22\x27")`: trim surrounding quote characters. -/
def goTrimQuotes (s : GoStr) : GoStr :=
  trimRightBy isQuoteChar (trimLeftBy isQuoteChar s)

/-- `strings.ToLower` (ASCII case folding). -/
def goToLower (s : GoStr) : GoStr :=
  s.map Char.toLower

/-- `strings.HasPrefix(s, pre)`. -/
def startsWithStr (s pre : GoStr) : Bool :=
  pre.isPrefixOf s

/-- `strings.HasSuffix(s, suf)`. -/
def endsWithStr (s suf : GoStr) : Bool :=
  suf.isSuffixOf s

/-- `strings.TrimSuffix(s, suf)`. -/
def trimSuffixStr (s suf : GoStr) : GoStr :=
  if endsWithStr s suf then s.take (s.length - suf.length) else s

/-- `strings.TrimPrefix(s, pre)`. -/
def trimStartStr (s pre : GoStr) : GoStr :=
  if startsWithStr s pre then s.drop pre.length else s

/-- Lines 732-735 of `pkg/skills/skills.go`: cut the pattern at the first
`(` (dropping a trailing parenthesized suffix) and re-trim. -/
def stripParenSuffix (s : GoStr) : GoStr :=
  if s.contains '(' then goTrimSpace (s.takeWhile (fun c => c ≠ '(')) else s

/-- `normalizeAllowedPattern` from `pkg/skills/skills.go` (lines 727-746). -/
def normalizeAllowedPattern (raw : GoStr) : GoStr :=
  let pattern := goTrimSpace (goToLower raw)
  if pattern = [] then []
  else
    let pattern := stripParenSuffix pattern
    let pattern := goTrimSpace (goTrimQuotes pattern)
    if endsWithStr pattern (":*".data) then
      let pre := trimSuffixStr pattern (":*".data)
      if pre = "git".data then "git_*".data else pre ++ "*".data
    else pattern

/-- `wildcardMatch` from `pkg/skills/skills.go` (lines 748-758). -/
def wildcardMatch (pattern value : GoStr) : Bool :=
  if pattern = value then true
  else if pattern.contains '*' then
    if endsWithStr pattern ("*".data) then
      startsWithStr value (trimSuffixStr pattern ("*".data))
    else false
  else false

/-- The `switch pattern` alias block inside `IsToolAllowed`
(`pkg/skills/skills.go` lines 700-721). -/
def skillsSwitchMatch (pattern tool : GoStr) : Bool :=
  if pattern = "bash".data then tool = "bash".data
  else if pattern = "git".data then startsWithStr tool "git_".data
  else if pattern = "read".data || pattern = "grep".data
       || pattern = "glob".data || pattern = "ls".data then
    tool = "read_file".data || tool = "list_files".data
  else if pattern = "write".data || pattern = "edit".data then
    tool = "write_file".data
  else if pattern = "skill".data || pattern = "skills".data then
    tool = "use_skill".data || tool = "list_skills".data || tool = "read_skill".data
  else false

/-- The `for _, raw := range allowed` loop of `IsToolAllowed`. -/
def isToolAllowedLoop : List GoStr → GoStr → Bool
  | [], _ => false
  | raw :: rest, tool =>
    let pattern := normalizeAllowedPattern raw
    if pattern = [] then isToolAllowedLoop rest tool
    else if pattern = "*".data then true
    else if wildcardMatch pattern tool then true
    else if skillsSwitchMatch pattern tool then true
    else isToolAllowedLoop rest tool

/-- `IsToolAllowed` from `pkg/skills/skills.go` (lines 679-725). -/
def IsToolAllowed (toolName : GoStr) (allowed : List GoStr) : Bool :=
  if allowed = [] then true
  else
    let tool := goToLower (goTrimSpace toolName)
    if tool = [] then false
    else isToolAllowedLoop allowed tool

/-- `parseAllowedToolsValue` from `pkg/skills/skills.go` (lines 373-390). -/
def parseAllowedToolsValue (raw : GoStr) : List GoStr :=
  let raw := goTrimSpace raw
  let raw := trimStartStr raw ("[".data)
  let raw := trimSuffixStr raw ("]".data)
  if raw = [] then []
  else
    ((raw.splitOn ',').map (fun part => goTrimQuotes (goTrimSpace part))).filter
      (fun part => part ≠ [])

/-- `ParseAllowedToolsEnv` from `pkg/skills/skills.go` (lines 646-664). -/
def ParseAllowedToolsEnv (value : GoStr) : List GoStr :=
  let value := goTrimSpace value
  if value = [] then []
  else if value.contains '\n' then
    ((value.splitOn '\n').map goTrimSpace).filter (fun part => part ≠ [])
  else parseAllowedToolsValue value

/-! ## Message model (`types` package, src/unnamed/part_014)

Go's `MessageRole`, `ContentType` and `StopReason` are string types, so they
are modelled as `GoStr` with named constants. -/

/-- `llm.ContentBlock`: a tagged unit of message content.  `Input`
(`map[string]any`) is opaque to every claim and modelled as an association
list of strings. -/
structure ContentBlock where
  type : GoStr := []
  text : GoStr := []
  id : GoStr := []
  name : GoStr := []
  input : List (GoStr × GoStr) := []
  toolUseID : GoStr := []
  content : GoStr := []
  isError : Bool := false
deriving DecidableEq, Repr

/-- `llm.Message`. -/
structure Message where
  role : GoStr := []
  content : List ContentBlock := []
deriving DecidableEq, Repr

instance : Inhabited Message := ⟨{}⟩

def contentTypeText : GoStr := "text".data
def contentTypeToolUse : GoStr := "tool_use".data
def contentTypeToolResult : GoStr := "tool_result".data
def roleUser : GoStr := "user".data
def roleAssistant : GoStr := "assistant".data
def stopReasonEndTurn : GoStr := "end_turn".data
def stopReasonToolUse : GoStr := "tool_use".data
def stopReasonMaxTokens : GoStr := "max_tokens".data

/-! ## Message-history truncation
(`truncateMessages`, src/unnamed/part_019 lines 864-987) -/

/-- The non-empty `tool_use` ids of one message, in block order. -/
def toolUseIDsOfMsg (m : Message) : List GoStr :=
  m.content.filterMap fun b =>
    if b.type = contentTypeToolUse ∧ b.id ≠ [] then some b.id else none

/-- `collectToolUseIDs(from, includeFirst)`: every non-empty `tool_use` id in
`messages[0]` (when `includeFirst`) and in `messages[keepFrom:]`. -/
def collectToolUseIDs (messages : List Message) (keepFrom : Nat)
    (includeFirst : Bool) : List GoStr :=
  (if includeFirst then (messages.take 1).flatMap toolUseIDsOfMsg else []) ++
    (messages.drop keepFrom).flatMap toolUseIDsOfMsg

/-- Does message `m` contain a `tool_use` block with id `tid`? -/
def msgHasToolUse (m : Message) (tid : GoStr) : Bool :=
  m.content.any fun b => b.type = contentTypeToolUse && b.id = tid

/-- The inner `for j := keepFrom - 1; j >= 1; j--` search: the largest index
`j` in `[1, keepFrom)` whose message contains a `tool_use` with id `tid`. -/
def findDepIdx (messages : List Message) (keepFrom : Nat) (tid : GoStr) :
    Option Nat :=
  ((List.range' 1 (keepFrom - 1)).reverse).find? fun j =>
    msgHasToolUse (messages.getD j default) tid

/-- One pass of the fixed-point scan (lines 898-933): walk the retained
window in order; for the first `tool_result` whose id is not collected and
whose `tool_use` is found in the dropped middle, return the new `keepFrom`. -/
def passFindChange (messages : List Message) (keepFrom : Nat) : Option Nat :=
  let ids := collectToolUseIDs messages keepFrom true
  (((messages.drop keepFrom).flatMap (fun m => m.content)).filterMap fun b =>
    if b.type = contentTypeToolResult ∧ b.toolUseID ≠ [] ∧ b.toolUseID ∉ ids then
      findDepIdx messages keepFrom b.toolUseID
    else none).head?

/-- The bounded fixed-point iteration (`for iteration := 0; iteration < 100`). -/
def truncLoop (messages : List Message) : Nat → Nat → Nat
  | 0, keepFrom => keepFrom
  | fuel + 1, keepFrom =>
    match passFindChange messages keepFrom with
    | none => keepFrom
    | some j => truncLoop messages fuel j

/-- `truncateMessages` from src/unnamed/part_019 (lines 864-987).  The final
orphan validation (lines 940-975) only logs warnings and is omitted. -/
def truncateMessages (messages : List Message) (maxMessages : Nat) :
    List Message :=
  if messages.length ≤ maxMessages then messages
  else
    let keepFrom := max (messages.length - maxMessages + 1) 1
    let keepFrom := truncLoop messages 100 keepFrom
    messages.take 1 ++ messages.drop keepFrom

/-! ## Repository instruction loading (`instructions.Load`, src/unnamed/part_003)

`Load` first resolves `workDir`, ascends to the repository root and
enumerates the directories from root down to `workDir`
(`findRepoRoot`/`dirsFromRoot`, lines 46-58): that filesystem walk is
represented here by the `dirs` parameter (in root-to-leaf order) and the
filesystem by the `InstrFS` oracle.  `filepath.Clean` is modelled as the
identity on already-clean paths and `filepath.Join` as separator
concatenation. -/

structure InstrFS where
  /-- `os.ReadFile`: `none` models a read error. -/
  readFile : GoStr → Option GoStr
  /-- `filepath.EvalSymlinks`: `none` models an error (fall back to the
  cleaned path). -/
  resolveSymlinks : GoStr → Option GoStr
  /-- `relToRoot root`: render a path relative to the repository root. -/
  rel : GoStr → GoStr

/-- `filepath.Join(dir, name)` for a clean directory and a simple name. -/
def pathJoin (dir name : GoStr) : GoStr := dir ++ "/".data ++ name

/-- `appendWithinLimit` from src/unnamed/part_003 (lines 122-151).
Returns `(parts, remaining, appended, truncated)`. -/
def appendWithinLimit (parts : List GoStr) (sec : GoStr) (remaining : Int) :
    List GoStr × Int × Bool × Bool :=
  if remaining ≤ 0 then (parts, remaining, false, true)
  else
    let separatorLen : Int := if parts ≠ [] then 2 else 0
    let needed : Int := separatorLen + sec.length
    if needed ≤ remaining then (parts ++ [sec], remaining - needed, true, false)
    else
      let available := remaining - separatorLen
      if 0 < available then
        let available := if (sec.length : Int) < available then (sec.length : Int)
          else available
        (parts ++ [sec.take available.toNat],
          remaining - (separatorLen + available), true, true)
      else (parts, remaining, false, true)

/-- The candidate scan of one directory layer (lines 77-108): the first
readable, non-blank, not-yet-seen candidate, as
`(section, relPath, resolvedPath)`. -/
def findCandidate (fs : InstrFS) (seen : List GoStr) :
    List GoStr → GoStr → Option (GoStr × GoStr × GoStr)
  | [], _ => none
  | filename :: rest, dir =>
    let path := pathJoin dir filename
    match fs.readFile path with
    | none => findCandidate fs seen rest dir
    | some data =>
      let content := goTrimSpace data
      if content = [] then findCandidate fs seen rest dir
      else
        let resolved := match fs.resolveSymlinks path with
          | some p => p
          | none => path
        if resolved ∈ seen then findCandidate fs seen rest dir
        else
          let relPath := fs.rel path
          some ("## ".data ++ relPath ++ "\n".data ++ content, relPath, resolved)

/-- Accumulator of `Load`'s directory loop (lines 70-74). -/
structure LoadAcc where
  parts : List GoStr
  sources : List GoStr
  seen : List GoStr
  remaining : Int
  truncated : Bool
deriving DecidableEq, Repr

/-- One directory layer of `Load` (lines 76-109): locate the candidate,
append it within the byte limit, record source and resolved path. -/
def loadDirStep (fs : InstrFS) (candidates : List GoStr) (acc : LoadAcc)
    (dir : GoStr) : LoadAcc :=
  match findCandidate fs acc.seen candidates dir with
  | none => acc
  | some (sec, relPath, resolved) =>
    let r := appendWithinLimit acc.parts sec acc.remaining
    let acc' : LoadAcc :=
      { acc with parts := r.1, remaining := r.2.1,
                 truncated := acc.truncated || r.2.2.2 }
    if r.2.2.1 then
      { acc' with sources := acc'.sources ++ [relPath],
                  seen := acc'.seen ++ [resolved] }
    else acc'

/-- The directory loop of `Load` with its early exit
(`if truncated || remaining <= 0 break`, line 110). -/
def loadDirs (fs : InstrFS) (candidates : List GoStr) :
    List GoStr → LoadAcc → LoadAcc
  | [], acc => acc
  | dir :: rest, acc =>
    let acc := loadDirStep fs candidates acc dir
    if acc.truncated || acc.remaining ≤ 0 then acc
    else loadDirs fs candidates rest acc

/-- `instructions.LoadResult`. -/
structure LoadResult where
  content : GoStr
  sources : List GoStr
  truncated : Bool
deriving DecidableEq, Repr

/-- `strings.Join(parts, "\n\n")`. -/
def joinParts : List GoStr → GoStr
  | [] => []
  | [p] => p
  | p :: q :: rest => p ++ "\n\n".data ++ joinParts (q :: rest)

/-- `instructions.Load` (lines 46-120) over the directory list produced by
`findRepoRoot`/`dirsFromRoot` and the `InstrFS` oracle. -/
def instrLoad (fs : InstrFS) (dirs candidates : List GoStr) (maxBytes : Int) :
    LoadResult :=
  let maxBytes := if maxBytes ≤ 0 then 32 * 1024 else maxBytes
  let acc := loadDirs fs candidates dirs
    { parts := [], sources := [], seen := [], remaining := maxBytes,
      truncated := false }
  { content := joinParts acc.parts, sources := acc.sources,
    truncated := acc.truncated }

/-! ## Agent loop (`AgentLoop.Run`, src/unnamed/part_019)

The loop body (lines 176-325) is embedded as a step function over an
explicit run record plus an oracle environment supplying everything the Go
code obtains effectfully: context cancellation, the transform pipeline
outcome, the `ConvertToLlm` hook, provider responses, the `crypto/rand` id
supply, tool executions and the two loop-input fetchers.  Oracles are
indexed by occurrence counters, which over-approximates any concrete
behaviour of the Go collaborators.  The prompt/skill setup before the loop
(lines 109-173) only computes loop inputs and is reflected in the initial
run record.  Observable actions are recorded as a trace of events (an event
marks the point where the corresponding nilable Go callback is invoked). -/

/-- `tools.ToolResult`.  Modelled from the spec: the `tools` package source
is not under src/ (only its tests); `ToolResult = \x7b content, is_error \x7d`. -/
structure ToolResult where
  content : GoStr := []
  isError : Bool := false
deriving DecidableEq, Repr

/-- `tools.NewErrorResult` / `NewErrorResultf`.  Modelled from the spec:
an error `ToolResult` carrying the message. -/
def newErrorResult (msg : GoStr) : ToolResult :=
  { content := msg, isError := true }

structure Usage where
  inputTokens : Nat := 0
  outputTokens : Nat := 0
deriving DecidableEq, Repr

/-- `llm.AgentResponse`.  Modelled from the spec and the provider tests:
the `llm` package source is not under src/. -/
structure AgentResponse where
  role : GoStr := roleAssistant
  stopReason : GoStr := []
  content : List ContentBlock := []
  usage : Usage := {}
deriving DecidableEq, Repr

instance : Inhabited AgentResponse := ⟨{}⟩

/-- `AgentResponse.ToMessage`: the assistant message carrying the response
content.  Modelled from the spec. -/
def AgentResponse.toMessage (r : AgentResponse) : Message :=
  { role := roleAssistant, content := r.content }

/-- `AgentResponse.HasToolUse`.  Modelled from the spec. -/
def AgentResponse.hasToolUse (r : AgentResponse) : Bool :=
  r.content.any fun b => b.type = contentTypeToolUse

/-- `AgentResponse.GetToolUses`.  Modelled from the spec. -/
def AgentResponse.getToolUses (r : AgentResponse) : List ContentBlock :=
  r.content.filter fun b => b.type = contentTypeToolUse

structure ToolCallRecord where
  name : GoStr
  input : List (GoStr × GoStr)
  result : ToolResult
deriving DecidableEq, Repr

/-- The loop state.  Modelled from the spec (`LoopState`): the internal
orchestrator `State` type (`NewState`, `AddMessage`, `AddToolCall`,
`IncrementIteration`, `UpdateUsage`, `ToResult`) is not under src/; only
its callers and tests are. -/
structure LoopState where
  messages : List Message := []
  iterations : Nat := 0
  toolCalls : List ToolCallRecord := []
  lastResponse : AgentResponse := {}
  inputTokens : Nat := 0
  outputTokens : Nat := 0
deriving DecidableEq, Repr

def NewState (initial : List Message) : LoopState :=
  { messages := initial }

def LoopState.addMessage (st : LoopState) (m : Message) : LoopState :=
  { st with messages := st.messages ++ [m] }

def LoopState.addToolCall (st : LoopState) (rec : ToolCallRecord) : LoopState :=
  { st with toolCalls := st.toolCalls ++ [rec] }

def LoopState.incrementIteration (st : LoopState) : LoopState :=
  { st with iterations := st.iterations + 1 }

def LoopState.updateUsage (st : LoopState) (u : Usage) : LoopState :=
  { st with inputTokens := st.inputTokens + u.inputTokens,
            outputTokens := st.outputTokens + u.outputTokens }

structure OrchestratorResult where
  finalMessage : Message
  messages : List Message
  totalIterations : Nat
  totalInputTokens : Nat
  totalOutputTokens : Nat
  toolCalls : List ToolCallRecord
deriving DecidableEq, Repr

/-- `State.ToResult`.  Modelled from the spec: the final message is the
assistant message of the last provider response. -/
def LoopState.toResult (st : LoopState) : OrchestratorResult :=
  { finalMessage := st.lastResponse.toMessage, messages := st.messages,
    totalIterations := st.iterations, totalInputTokens := st.inputTokens,
    totalOutputTokens := st.outputTokens, toolCalls := st.toolCalls }

/-- `hex.EncodeToString`: two lowercase hex digits per byte. -/
def hexDigitChar (n : Nat) : Char := "0123456789abcdef".data.getD n '0'

def hexEncode : List Nat → GoStr
  | [] => []
  | b :: rest => hexDigitChar (b / 16) :: hexDigitChar (b % 16) :: hexEncode rest

/-- `generateToolUseID` (src/unnamed/part_019 lines 30-37) on its
`crypto/rand` success path; the 12 random bytes are the argument.  The
rand-failure fallback (a nanosecond-counter id) is not modelled. -/
def generateToolUseID (bytes : List Nat) : GoStr :=
  "tool_".data ++ hexEncode bytes

/-- The tool-context environment: Go's `map[string]string` lookup returns
`""` for a missing key, so a populated map is a total function; `none`
models a nil `ToolContext`/`Env`. -/
abbrev ToolEnv := Option (GoStr → GoStr)

/-- An orchestrator request (the fields of the internal
`OrchestratorRequest` the loop claims depend on; everything else is carried
by the oracle environment). -/
structure OrchestratorRequest where
  initialMessages : List Message := []
  maxIterations : Int := 0
  disableIterationLimit : Bool := false
  toolEnv : ToolEnv := none

/-- The loop-run record: the `State` plus `Run`'s loop-local variables
(`seenToolUseIDs`, the tool context) and the oracle occurrence counters. -/
structure LoopRun where
  state : LoopState
  seen : List GoStr := []
  mint : Nat := 0
  calls : Nat := 0
  fetches : Nat := 0
  execs : Nat := 0
  toolEnv : ToolEnv := none

/-- The oracle environment standing for the loop's effectful collaborators. -/
structure LoopEnv where
  /-- `ctx.Done()` polled at the top of iteration `i`. -/
  cancelled : Nat → Bool
  /-- `runTransformPlugins` outcome for iteration `i`:
  `none` = error, `some (contextMessages, persistedStateMessages)`. -/
  transform : Nat → List Message → Option (List Message × List Message)
  /-- `ConvertToLlm` (default identity or user hook); `none` = error. -/
  convert : Nat → List Message → Option (List Message)
  /-- `callProvider` for the k-th provider call; `none` = error. -/
  provider : Nat → List Message → Option AgentResponse
  /-- The `generateToolUseID` supply for the k-th minted id. -/
  gen : Nat → GoStr
  /-- `Registry.Get(name) != nil`. -/
  registryHas : GoStr → Bool
  /-- `tool.Execute` for the k-th executed tool (a Go error return is
  already folded to an error result, lines 376-380). -/
  execTool : Nat → GoStr → List (GoStr × GoStr) → ToolResult
  /-- The tool-context env after the k-th executed tool (tools may mutate
  `ToolContext.Env`). -/
  envAfterExec : Nat → ToolEnv → ToolEnv
  /-- `GetSteeringMessages` at the k-th loop-input checkpoint;
  `none` = nil fetcher or fetcher error. -/
  steeringRaw : Nat → Option (List Message)
  /-- `GetFollowUpMessages` at the k-th loop-input checkpoint. -/
  followUpRaw : Nat → Option (List Message)

/-- Observable actions of a run.  `added` is a `state.AddMessage`;
`cbMessage`/`cbToolCall`/`cbToolResult`/`cbSteering`/`cbFollowUp` mark the
invocation points of the corresponding nilable callbacks; `execInvoked`
marks an actual `tool.Execute` call; `blocked` a skill-allowlist denial. -/
inductive Event where
  | providerCall
  | added (m : Message)
  | cbMessage (m : Message)
  | execInvoked (name : GoStr)
  | blocked (name : GoStr)
  | cbToolCall (name : GoStr)
  | cbToolResult (name : GoStr) (r : ToolResult)
  | cbSteering (msgs : List Message)
  | cbFollowUp (msgs : List Message)
deriving DecidableEq, Repr

/-- `normalizeLoopInputMessages` (src/unnamed/part_019 lines 451-466). -/
def normalizeLoopInputMessages (messages : List Message) : List Message :=
  messages.filterMap fun msg =>
    if msg.content = [] then none
    else if msg.role = [] then some { msg with role := roleUser }
    else some msg

/-- `fetchLoopInputs` (lines 420-449): poll both fetchers, normalizing each
successful result; a nil fetcher or fetcher error yields no messages. -/
def fetchLoopInputs (env : LoopEnv) (r : LoopRun) :
    List Message × List Message × LoopRun :=
  let steering := match env.steeringRaw r.fetches with
    | none => []
    | some ms => normalizeLoopInputMessages ms
  let followUp := match env.followUpRaw r.fetches with
    | none => []
    | some ms => normalizeLoopInputMessages ms
  (steering, followUp, { r with fetches := r.fetches + 1 })

/-- `applyLoopInputs` (lines 468-493): append steering then follow-up
messages; each non-empty batch fires its callback. -/
def applyLoopInputs (r : LoopRun) (steering followUp : List Message) :
    LoopRun × List Event :=
  let st := (steering ++ followUp).foldl LoopState.addMessage r.state
  let tr :=
    steering.map Event.added ++
      (if steering = [] then [] else [Event.cbSteering steering]) ++
    followUp.map Event.added ++
      (if followUp = [] then [] else [Event.cbFollowUp followUp])
  ({ r with state := st }, tr)

/-- `ensureToolAllowedByActiveSkill` (lines 831-859): `some errMsg` models
the non-nil error return. -/
def ensureToolAllowedByActiveSkill (toolEnv : ToolEnv) (toolName : GoStr) :
    Option GoStr :=
  match toolEnv with
  | none => none
  | some envMap =>
    if toolName = "use_skill".data then none
    else
      let allowedRaw := goTrimSpace (envMap "ACTIVE_SKILL_ALLOWED_TOOLS".data)
      if allowedRaw = [] then none
      else if IsToolAllowed toolName (ParseAllowedToolsEnv allowedRaw) then none
      else some ("tool is blocked by skill allowed-tools policy".data)

/-- `toolExecResult` (lines 495-500). -/
structure ToolExecResult where
  id : GoStr
  name : GoStr
  input : List (GoStr × GoStr)
  result : ToolResult
deriving DecidableEq, Repr

/-- `executeTools` (lines 328-404).  Returns
`(results, steering, followUp, interrupted, run, trace)`; the Go error
return is always nil and is dropped. -/
def executeToolsLoop (env : LoopEnv) :
    List ContentBlock → LoopRun →
    List ToolExecResult × List Message × List Message × Bool × LoopRun × List Event
  | [], r => ([], [], [], false, r, [])
  | use :: rest, r =>
    match ensureToolAllowedByActiveSkill r.toolEnv use.name with
    | some e =>
      let result := newErrorResult e
      let res : ToolExecResult :=
        { id := use.id, name := use.name, input := use.input, result := result }
      let tr0 := [Event.blocked use.name, Event.cbToolResult use.name result]
      let fetched := fetchLoopInputs env r
      if fetched.1 ≠ [] ∨ fetched.2.1 ≠ [] then
        ([res], fetched.1, fetched.2.1, true, fetched.2.2, tr0)
      else
        let out := executeToolsLoop env rest fetched.2.2
        (res :: out.1, out.2.1, out.2.2.1, out.2.2.2.1, out.2.2.2.2.1,
          tr0 ++ out.2.2.2.2.2)
    | none =>
      let step :=
        if env.registryHas use.name then
          (env.execTool r.execs use.name use.input,
            { r with execs := r.execs + 1,
                     toolEnv := env.envAfterExec r.execs r.toolEnv },
            [Event.execInvoked use.name])
        else
          (newErrorResult ("tool not found".data), r, ([] : List Event))
      let res : ToolExecResult :=
        { id := use.id, name := use.name, input := use.input, result := step.1 }
      let tr1 := [Event.cbToolCall use.name] ++ step.2.2 ++
        [Event.cbToolResult use.name step.1]
      let fetched := fetchLoopInputs env step.2.1
      if fetched.1 ≠ [] ∨ fetched.2.1 ≠ [] then
        ([res], fetched.1, fetched.2.1, true, fetched.2.2, tr1)
      else
        let out := executeToolsLoop env rest fetched.2.2
        (res :: out.1, out.2.1, out.2.2.1, out.2.2.2.1, out.2.2.2.2.1,
          tr1 ++ out.2.2.2.2.2)

/-- `buildToolResultMessage` (lines 503-520). -/
def buildToolResultMessage (results : List ToolExecResult) : Message :=
  { role := roleUser,
    content := results.map fun res =>
      { type := contentTypeToolResult, toolUseID := res.id,
        content := res.result.content, isError := res.result.isError } }

/-- The id-repair pass over the response content (lines 233-249): a
`tool_use` id that is empty or already seen is replaced by the next minted
id; every (possibly repaired) `tool_use` id is then recorded as seen. -/
def fixToolUseIDs (gen : Nat → GoStr) :
    List ContentBlock → List GoStr → Nat →
    List ContentBlock × List GoStr × Nat
  | [], seen, mint => ([], seen, mint)
  | b :: rest, seen, mint =>
    if b.type = contentTypeToolUse then
      let id' := if b.id = [] ∨ b.id ∈ seen then gen mint else b.id
      let mint' := if b.id = [] ∨ b.id ∈ seen then mint + 1 else mint
      let out := fixToolUseIDs gen rest (seen ++ [id']) mint'
      ({ b with id := id' } :: out.1, out.2)
    else
      let out := fixToolUseIDs gen rest seen mint
      (b :: out.1, out.2)

inductive RunErr where
  | cancelled | transformFailed | convertFailed | providerFailed
  | maxTokens | iterationLimit
deriving DecidableEq, Repr

/-- The outcome of one loop iteration. -/
inductive StepOut where
  | cont (r : LoopRun) (tr : List Event)
  | finished (res : OrchestratorResult) (e : Option RunErr) (tr : List Event)

/-- One iteration of the agent loop: the body of `for` in `Run`
(src/unnamed/part_019 lines 176-315). -/
def stepIteration (env : LoopEnv) (r : LoopRun) : StepOut :=
  if env.cancelled r.state.iterations then
    .finished r.state.toResult (some .cancelled) []
  else
    let r := { r with state := r.state.incrementIteration }
    match env.transform r.state.iterations r.state.messages with
    | none => .finished r.state.toResult (some .transformFailed) []
    | some (ctxMsgs, persisted) =>
      let r := { r with state := { r.state with messages := persisted } }
      match env.convert r.state.iterations ctxMsgs with
      | none => .finished r.state.toResult (some .convertFailed) []
      | some llmMsgs =>
        match env.provider r.calls llmMsgs with
        | none =>
          .finished r.state.toResult (some .providerFailed) [.providerCall]
        | some resp =>
          let r := { r with calls := r.calls + 1 }
          let fixed := fixToolUseIDs env.gen resp.content r.seen r.mint
          let resp : AgentResponse := { resp with content := fixed.1 }
          let st := r.state.updateUsage resp.usage
          let st := { st with lastResponse := resp }
          let r := { r with seen := fixed.2.1, mint := fixed.2.2, state := st }
          let assistantMsg := resp.toMessage
          let r := { r with state := r.state.addMessage assistantMsg }
          let tr0 := [Event.providerCall, Event.added assistantMsg,
            Event.cbMessage assistantMsg]
          if resp.stopReason = stopReasonEndTurn then
            let fetched := fetchLoopInputs env r
            if fetched.1 ≠ [] ∨ fetched.2.1 ≠ [] then
              let ap := applyLoopInputs fetched.2.2 fetched.1 fetched.2.1
              .cont ap.1 (tr0 ++ ap.2)
            else .finished fetched.2.2.state.toResult none tr0
          else if resp.stopReason = stopReasonMaxTokens then
            .finished r.state.toResult (some .maxTokens) tr0
          else if resp.stopReason = stopReasonToolUse ∨ resp.hasToolUse then
            let uses := resp.getToolUses
            let out := executeToolsLoop env uses r
            let results := out.1
            let r := out.2.2.2.2.1
            let st := results.foldl
              (fun st res => st.addToolCall
                { name := res.name, input := res.input, result := res.result })
              r.state
            let r := { r with state := st }
            let resultMsg := buildToolResultMessage results
            let r := { r with state := r.state.addMessage resultMsg }
            let tr := tr0 ++ out.2.2.2.2.2 ++ [Event.added resultMsg]
            if out.2.2.2.1 then
              let ap := applyLoopInputs r out.2.1 out.2.2.1
              .cont ap.1 (tr ++ ap.2)
            else .cont r tr
          else .cont r tr0

/-- The trace of one iteration outcome. -/
def StepOut.trace : StepOut → List Event
  | .cont _ tr => tr
  | .finished _ _ tr => tr

/-- The outcome of a whole run: the `(OrchestratorResult, error)` pair of
`Run`, or fuel exhaustion of the embedding (never reached with enough
fuel). -/
inductive RunOutcome where
  | ret (res : OrchestratorResult) (e : Option RunErr)
  | fuelOut
deriving Repr

/-- The agent loop (lines 176-325): loop while
`!hasIterationLimit || iterations < maxIterations`; on loop-condition exit
return the iteration-limit error (lines 318-324). -/
def runLoop (env : LoopEnv) (hasLimit : Bool) (maxIter : Int) :
    Nat → LoopRun → RunOutcome × List Event
  | fuel, r =>
    if hasLimit = true ∧ maxIter ≤ (r.state.iterations : Int) then
      (.ret r.state.toResult (some .iterationLimit), [])
    else
      match fuel with
      | 0 => (.fuelOut, [])
      | fuel + 1 =>
        match stepIteration env r with
        | .finished res e tr => (.ret res e, tr)
        | .cont r' tr =>
          let out := runLoop env hasLimit maxIter fuel r'
          (out.1, tr ++ out.2)

/-- The initial run record of `Run` (lines 108-173): fresh state from the
initial messages, empty seen-id set, tool context from the request. -/
def initRun (req : OrchestratorRequest) : LoopRun :=
  { state := NewState req.initialMessages, toolEnv := req.toolEnv }

/-- `AgentLoop.Run`'s loop with the iteration-cap setup of lines 154-156:
`hasIterationLimit = !DisableIterationLimit && maxIterations > 0`. -/
def runAgentLoop (env : LoopEnv) (req : OrchestratorRequest) (fuel : Nat) :
    RunOutcome × List Event :=
  runLoop env (!req.disableIterationLimit && decide (0 < req.maxIterations))
    req.maxIterations fuel (initRun req)

/-! ## Context pipeline (`buildTransformPlugins` / `runTransformPlugins`,
src/unnamed/part_018) -/

/-- `validateToolPairs` (src/unnamed/part_019 lines 41-82) reduced to its
decision: `true` when no orphaned `tool_result` exists. -/
def validateToolPairs (messages : List Message) : Bool :=
  let ids := messages.flatMap toolUseIDsOfMsg
  !((messages.flatMap (fun m => m.content)).any fun b =>
    b.type = contentTypeToolResult && (b.toolUseID = [] || b.toolUseID ∉ ids))

/-- A `contextTransformPlugin`.  `run` takes the current pipeline messages
and the current `state.Messages` and yields
`none` (error) or `some (nextMessages, newStateMessages)`; the second
component models the plugin writing `state.Messages`. -/
structure TransformPlugin where
  name : GoStr
  run : List Message → List Message → Option (List Message × List Message)

/-- `buildTransformPlugins` (src/unnamed/part_018 lines 14-83).  The user
hook is `transformContext` (`none` result = error).  The compactor is the
pair of its `ShouldCompact` predicate and its `Compact` function
(`none` = error); both are oracles since the `Compactor` source is not
under src/ (the spec gives `ShouldCompact = enabled && len > threshold`). -/
def buildTransformPlugins
    (transformContext : Option (List Message → Option (List Message)))
    (disableDefaultContextRules : Bool)
    (compactor : Option ((List Message → Bool) × (List Message → Option (List Message))))
    (maxMessages : Nat) : List TransformPlugin :=
  let user : List TransformPlugin := match transformContext with
    | none => []
    | some h =>
      [{ name := "user_transform_context".data,
         run := fun ms st => match h ms with
           | none => none
           | some ms' => some (ms', st) }]
  if disableDefaultContextRules then user
  else
    user ++
      (match compactor with
       | none => []
       | some c =>
         [{ name := "compact_context".data,
            run := fun ms st =>
              if !(c.1 ms) then some (ms, st)
              else match c.2 ms with
                | none => some (ms, st)
                | some compacted => some (compacted, compacted) }]) ++
      [{ name := "truncate_context".data,
         run := fun ms st =>
           if ms.length ≤ maxMessages then some (ms, st)
           else some (truncateMessages ms maxMessages, st) },
       { name := "validate_tool_pairs".data,
         run := fun ms st =>
           if validateToolPairs ms then some (ms, st) else some (st, st) }]

/-- `runTransformPlugins` (src/unnamed/part_018 lines 85-99): thread the
message list through the plugins, stopping at the first error. -/
def runTransformPlugins (plugins : List TransformPlugin)
    (messages stateMessages : List Message) :
    Option (List Message × List Message) :=
  match plugins with
  | [] => some (messages, stateMessages)
  | p :: rest =>
    match p.run messages stateMessages with
    | none => none
    | some next => runTransformPlugins rest next.1 next.2

/-! ## Trace observations and claim-level predicates -/

/-- Every `tool_use` id (empty or not) of a message, in block order. -/
def msgToolUseIds (m : Message) : List GoStr :=
  m.content.filterMap fun b =>
    if b.type = contentTypeToolUse then some b.id else none

/-- Every `tool_use` id of a block list, in order. -/
def blockToolUseIds (blocks : List ContentBlock) : List GoStr :=
  blocks.filterMap fun b =>
    if b.type = contentTypeToolUse then some b.id else none

/-- The `tool_use` ids of the assistant messages a run appended from
provider responses (each such message is the argument of exactly one
`cbMessage` event). -/
def traceAssistantToolUseIds (tr : List Event) : List GoStr :=
  tr.flatMap fun e => match e with
    | .cbMessage m => msgToolUseIds m
    | _ => []

/-- `s` is a `tool_use` id occurring in some provider response of `env`. -/
def providerToolUseId (env : LoopEnv) (s : GoStr) : Prop :=
  ∃ k msgs resp b, env.provider k msgs = some resp ∧ b ∈ resp.content ∧
    b.type = contentTypeToolUse ∧ b.id = s

/-- The number of provider calls recorded in a trace. -/
def countProviderCalls (tr : List Event) : Nat :=
  tr.countP fun e => match e with
    | .providerCall => true
    | _ => false

/-- Was `tool.Execute` invoked for `name` in this trace? -/
def traceExecutes (tr : List Event) (name : GoStr) : Bool :=
  tr.any fun e => match e with
    | .execInvoked n => n = name
    | _ => false

/-- Claim C4's retention property as stated: every `tool_result` kept by
truncation whose referenced `tool_use` exists somewhere in the input also
has that `tool_use` kept. -/
def retainedClosure (messages result : List Message) : Prop :=
  ∀ b ∈ result.flatMap (fun m => m.content),
    b.type = contentTypeToolResult → b.toolUseID ≠ [] →
    (∃ m ∈ messages, msgHasToolUse m b.toolUseID = true) →
    ∃ m ∈ result, msgHasToolUse m b.toolUseID = true

instance (messages result : List Message) :
    Decidable (retainedClosure messages result) := by
  unfold retainedClosure; infer_instance

/-- The closure property restricted to the retained suffix
(`messages[keepFrom:]`): every `tool_result` there whose referenced
`tool_use` exists in the input has its id among the collected retained
`tool_use` ids. -/
def suffixClosure (messages : List Message) (keepFrom : Nat) : Prop :=
  ∀ b ∈ (messages.drop keepFrom).flatMap (fun m => m.content),
    b.type = contentTypeToolResult → b.toolUseID ≠ [] →
    (∃ m ∈ messages, msgHasToolUse m b.toolUseID = true) →
    b.toolUseID ∈ collectToolUseIDs messages keepFrom true

instance (messages : List Message) (keepFrom : Nat) :
    Decidable (suffixClosure messages keepFrom) := by
  unfold suffixClosure; infer_instance

/-- A (possibly byte-capped) instruction section produced for directory
`dir`: the first readable, non-blank, not-yet-seen candidate of `dir`
rendered as `"## relpath\npath-content"`, or a strict prefix of it when the
byte cap cut it. -/
def SectionOfDir (fs : InstrFS) (candidates : List GoStr) (part dir : GoStr) :
    Prop :=
  ∃ seen sec relPath resolved,
    findCandidate fs seen candidates dir = some (sec, relPath, resolved) ∧
    (part = sec ∨ ∃ n, n < sec.length ∧ part = sec.take n)

/-- A concrete tool-context env map: the active skill allows only `bash`. -/
def witToolEnvMap : GoStr → GoStr := fun k =>
  if k = "ACTIVE_SKILL_ALLOWED_TOOLS".data then "bash".data else []

/-- A concrete tool-use response: twice the duplicate id `zz`. -/
def witToolResp : AgentResponse :=
  { stopReason := stopReasonToolUse,
    content :=
      [{ type := contentTypeToolUse, id := "zz".data, name := "noop".data },
       { type := contentTypeToolUse, id := "zz".data, name := "noop".data }] }

/-- A concrete end-turn response. -/
def witEndResp : AgentResponse :=
  { stopReason := stopReasonEndTurn,
    content := [{ type := contentTypeText, text := "done".data }] }

/-- A concrete oracle environment used to witness the loop theorems: a
tool-use turn with twice the id `zz`, then an end-turn response. -/
def witEnv : LoopEnv :=
  { cancelled := fun _ => false,
    transform := fun _ ms => some (ms, ms),
    convert := fun _ ms => some ms,
    provider := fun k _ => if k = 0 then some witToolResp else some witEndResp,
    gen := fun k => 'g' :: List.replicate k 'a',
    registryHas := fun _ => true,
    execTool := fun _ _ _ => { content := "ok".data, isError := false },
    envAfterExec := fun _ te => te,
    steeringRaw := fun _ => none,
    followUpRaw := fun _ => none }

/-- A concrete oracle environment whose provider always asks for tools, so
only the iteration cap can end the run. -/
def witEnvCap : LoopEnv :=
  { witEnv with provider := fun _ _ => some witToolResp }

/-- A concrete oracle environment whose provider reports `end_turn` while
still emitting a `tool_use` block. -/
def witEnvEndTurnToolUse : LoopEnv :=
  { witEnv with
    provider := fun _ _ =>
      some { stopReason := stopReasonEndTurn,
             content :=
               [{ type := contentTypeToolUse, id := "zz".data,
                  name := "noop".data }] } }

/-- C4 counterexample input: the always-kept first message holds a
`tool_result` whose matching `tool_use` sits in the dropped middle. -/
def cex4Msgs : List Message :=
  [{ role := roleUser,
     content := [{ type := contentTypeToolResult, toolUseID := "x".data }] },
   { role := roleAssistant,
     content := [{ type := contentTypeToolUse, id := "x".data }] },
   { role := roleUser, content := [{ type := contentTypeText, text := "a".data }] },
   { role := roleUser, content := [{ type := contentTypeText, text := "b".data }] }]

/-- C4 witness input: the retained `tool_result` forces the window to be
extended back to the `tool_use` at index 1. -/
def wit4Msgs : List Message :=
  [{ role := roleUser, content := [{ type := contentTypeText, text := "t".data }] },
   { role := roleAssistant,
     content := [{ type := contentTypeToolUse, id := "y".data }] },
   { role := roleUser, content := [{ type := contentTypeText, text := "a".data }] },
   { role := roleAssistant,
     content := [{ type := contentTypeText, text := "b".data }] },
   { role := roleUser,
     content := [{ type := contentTypeToolResult, toolUseID := "y".data }] }]

/-- C8 filesystem: one readable one-byte candidate `A` under each of the
directories `d1` and `d2`, no symlinks, paths already root-relative. -/
def cex8FS : InstrFS :=
  { readFile := fun p =>
      if p = "d1/A".data then some "x".data
      else if p = "d2/A".data then some "y".data
      else none,
    resolveSymlinks := fun _ => none,
    rel := fun p => p }

/-! # Helper lemmas -/

theorem dropWhile_all_false (p : Char → Bool) :
    ∀ l : GoStr, (∀ c ∈ l, p c = false) → List.dropWhile p l = l
  | [], _ => rfl
  | c :: t, h => by
    simp [List.dropWhile_cons, h c (List.mem_cons_self c t)]

theorem trimLeftBy_all_false (p : Char → Bool) (l : GoStr)
    (h : ∀ c ∈ l, p c = false) : trimLeftBy p l = l :=
  dropWhile_all_false p l h

theorem trimRightBy_all_false (p : Char → Bool) (l : GoStr)
    (h : ∀ c ∈ l, p c = false) : trimRightBy p l = l := by
  unfold trimRightBy
  rw [dropWhile_all_false p l.reverse (fun c hc => h c (List.mem_reverse.1 hc))]
  exact l.reverse_reverse

theorem goTrimSpace_all_false (l : GoStr)
    (h : ∀ c ∈ l, isSpaceChar c = false) : goTrimSpace l = l := by
  unfold goTrimSpace
  rw [trimLeftBy_all_false _ _ h, trimRightBy_all_false _ _ h]

theorem goTrimQuotes_all_false (l : GoStr)
    (h : ∀ c ∈ l, isQuoteChar c = false) : goTrimQuotes l = l := by
  unfold goTrimQuotes
  rw [trimLeftBy_all_false _ _ h, trimRightBy_all_false _ _ h]

theorem contains_false_of_all_ne (l : GoStr) (ch : Char)
    (h : ∀ c ∈ l, c ≠ ch) : l.contains ch = false := by
  rw [Bool.eq_false_iff]
  intro hc
  have : ch ∈ l := by simpa using hc
  exact h ch this rfl

theorem contains_true_of_mem (l : GoStr) (ch : Char) (h : ch ∈ l) :
    l.contains ch = true := by
  simpa using h

theorem isPrefixOf_append_self : ∀ l m : GoStr, l.isPrefixOf (l ++ m) = true
  | [], m => by simp [List.isPrefixOf]
  | a :: t, m => by
    simp [List.isPrefixOf, isPrefixOf_append_self t m]

theorem startsWithStr_append_self (l m : GoStr) :
    startsWithStr (l ++ m) l = true :=
  isPrefixOf_append_self l m

theorem endsWithStr_append (l s : GoStr) : endsWithStr (l ++ s) s = true := by
  unfold endsWithStr
  show s.reverse.isPrefixOf (l ++ s).reverse = true
  rw [List.reverse_append]
  exact isPrefixOf_append_self s.reverse l.reverse

theorem trimSuffixStr_append (l s : GoStr) : trimSuffixStr (l ++ s) s = l := by
  unfold trimSuffixStr
  rw [endsWithStr_append]
  simp

theorem map_fix_of_all {f : Char → Char} (l : GoStr)
    (h : ∀ c ∈ l, f c = c) : l.map f = l :=
  (List.map_congr_left h).trans (List.map_id l)

/-! ## Claim C5: `prefix:*` allowlist patterns -/

theorem normalize_colon_star (pre : GoStr)
    (hgit : pre ≠ "git".data)
    (hplain : ∀ c ∈ pre, Char.toLower c = c ∧ isSpaceChar c = false ∧
      isQuoteChar c = false ∧ c ≠ '(') :
    normalizeAllowedPattern (pre ++ ":*".data) = pre ++ "*".data := by
  have hsp : ∀ c ∈ pre ++ ":*".data, isSpaceChar c = false := by
    intro c hc
    rcases List.mem_append.1 hc with h | h
    · exact (hplain c h).2.1
    · have : c = ':' ∨ c = '*' := by simpa using h
      rcases this with rfl | rfl <;> decide
  have hq : ∀ c ∈ pre ++ ":*".data, isQuoteChar c = false := by
    intro c hc
    rcases List.mem_append.1 hc with h | h
    · exact (hplain c h).2.2.1
    · have : c = ':' ∨ c = '*' := by simpa using h
      rcases this with rfl | rfl <;> decide
  have hp : ∀ c ∈ pre ++ ":*".data, c ≠ '(' := by
    intro c hc
    rcases List.mem_append.1 hc with h | h
    · exact (hplain c h).2.2.2
    · have : c = ':' ∨ c = '*' := by simpa using h
      rcases this with rfl | rfl <;> decide
  have htl : goToLower (pre ++ ":*".data) = pre ++ ":*".data := by
    unfold goToLower
    rw [List.map_append, map_fix_of_all pre (fun c hc => (hplain c hc).1)]
    rw [show List.map Char.toLower (":*".data) = ":*".data from by decide]
  have hne2 : pre ++ ":*".data ≠ [] := by
    simp [List.append_eq_nil]
  simp only [normalizeAllowedPattern]
  rw [htl, goTrimSpace_all_false _ hsp, if_neg hne2]
  simp only [stripParenSuffix, contains_false_of_all_ne _ '(' hp,
    Bool.false_eq_true, if_false]
  rw [goTrimQuotes_all_false _ hq, goTrimSpace_all_false _ hsp]
  simp only [endsWithStr_append, if_true]
  rw [trimSuffixStr_append]
  rw [if_neg hgit]

theorem isToolAllowedLoop_star (raw pre tool' : GoStr)
    (hnorm : normalizeAllowedPattern raw = pre ++ "*".data)
    (hne : pre ≠ []) :
    isToolAllowedLoop [raw] tool' = startsWithStr tool' pre := by
  have h1 : pre ++ "*".data ≠ [] := by simp [List.append_eq_nil]
  have h2 : pre ++ "*".data ≠ "*".data := by
    intro h
    apply hne
    have hl := congrArg List.length h
    simp at hl
    exact hl
  have hstarmem : '*' ∈ pre ++ "*".data := by
    refine List.mem_append_right _ ?_
    decide
  have hnotlit : ∀ lit : GoStr, '*' ∉ lit → ¬(pre ++ "*".data = lit) := by
    intro lit hl h
    exact hl (h ▸ hstarmem)
  have hwild : wildcardMatch (pre ++ "*".data) tool' = startsWithStr tool' pre := by
    unfold wildcardMatch
    by_cases heq : pre ++ "*".data = tool'
    · rw [if_pos heq, ← heq, startsWithStr_append_self]
    · rw [if_neg heq]
      simp only [contains_true_of_mem _ '*' hstarmem, endsWithStr_append,
        if_true, trimSuffixStr_append]
  have hswitch : skillsSwitchMatch (pre ++ "*".data) tool' = false := by
    have b1 := hnotlit "bash".data (by decide)
    have b2 := hnotlit "git".data (by decide)
    have b3 := hnotlit "read".data (by decide)
    have b4 := hnotlit "grep".data (by decide)
    have b5 := hnotlit "glob".data (by decide)
    have b6 := hnotlit "ls".data (by decide)
    have b7 := hnotlit "write".data (by decide)
    have b8 := hnotlit "edit".data (by decide)
    have b9 := hnotlit "skill".data (by decide)
    have b10 := hnotlit "skills".data (by decide)
    simp [skillsSwitchMatch, b1, b2, b3, b4, b5, b6, b7, b8, b9, b10]
  simp only [isToolAllowedLoop, hnorm, if_neg h1, if_neg h2, hwild, hswitch]
  by_cases hsw : startsWithStr tool' pre = true
  · simp [hsw]
  · simp [Bool.eq_false_iff.2 hsw, hsw]

/-- C5: the claim as written fails on the code.  A pattern `foo:*`
normalizes to `foo*`, so `IsToolAllowed` accepts the tool name `foobar`,
which does not start with `foo_` as the claim would require. -/
theorem C5_counterexample :
    IsToolAllowed "foobar".data ["foo:*".data] = true ∧
    startsWithStr (goToLower (goTrimSpace "foobar".data)) "foo_".data = false := by
  decide

/-- C5 (amended): a pattern `pre:*` (for a plain non-empty lowercase token
`pre` other than `git`) is treated as `pre*`: it matches exactly the
trimmed lowercased tool names that start with `pre`, with no underscore
required; the special case `git:*` is mapped to `git_*` and matches exactly
the tool names starting with `git_`. -/
theorem C5_colon_star_is_plain_star (pre tool : GoStr) (hne : pre ≠ [])
    (hgit : pre ≠ "git".data)
    (hplain : ∀ c ∈ pre, Char.toLower c = c ∧ isSpaceChar c = false ∧
      isQuoteChar c = false ∧ c ≠ '(') :
    IsToolAllowed tool [pre ++ ":*".data] =
      (if goToLower (goTrimSpace tool) = [] then false
       else startsWithStr (goToLower (goTrimSpace tool)) pre) ∧
    IsToolAllowed tool ["git:*".data] =
      (if goToLower (goTrimSpace tool) = [] then false
       else startsWithStr (goToLower (goTrimSpace tool)) "git_".data) := by
  constructor
  · unfold IsToolAllowed
    rw [if_neg (by simp : ¬([pre ++ ":*".data] = ([] : List GoStr)))]
    by_cases h : goToLower (goTrimSpace tool) = []
    · simp [h]
    · rw [if_neg h, if_neg h]
      exact isToolAllowedLoop_star _ pre _
        (normalize_colon_star pre hgit hplain) hne
  · unfold IsToolAllowed
    rw [if_neg (by simp : ¬(["git:*".data] = ([] : List GoStr)))]
    by_cases h : goToLower (goTrimSpace tool) = []
    · simp [h]
    · rw [if_neg h, if_neg h]
      exact isToolAllowedLoop_star _ ("git_".data) _ (by decide) (by decide)

/-- Witness for C5's amended theorem at `pre = foo`, `tool = Foo_bar`. -/
theorem C5_colon_star_witness :
    ("foo".data ≠ ([] : GoStr)) ∧
    (IsToolAllowed "Foo_bar".data ["foo:*".data] =
      (if goToLower (goTrimSpace "Foo_bar".data) = [] then false
       else startsWithStr (goToLower (goTrimSpace "Foo_bar".data)) "foo".data)) :=
  ⟨by decide,
   (C5_colon_star_is_plain_star "foo".data "Foo_bar".data (by decide) (by decide)
     (by decide)).1⟩

/-! ## Claim C3: active-skill allowlist enforcement -/

theorem traceExecutes_append (a b : List Event) (n : GoStr) :
    traceExecutes (a ++ b) n = (traceExecutes a n || traceExecutes b n) := by
  simp [traceExecutes]

theorem executeTools_no_exec_of_blocked (env : LoopEnv) (name e : GoStr)
    (henv : ∀ k te, env.envAfterExec k te = te) :
    ∀ (uses : List ContentBlock) (r : LoopRun),
      ensureToolAllowedByActiveSkill r.toolEnv name = some e →
      traceExecutes (executeToolsLoop env uses r).2.2.2.2.2 name = false
  | [], r, hblock => by simp [executeToolsLoop, traceExecutes]
  | use :: rest, r, hblock => by
    have hfe : (fetchLoopInputs env r).2.2.toolEnv = r.toolEnv := rfl
    cases hens : ensureToolAllowedByActiveSkill r.toolEnv use.name with
    | some e' =>
      have hrec := executeTools_no_exec_of_blocked env name e henv rest
        (fetchLoopInputs env r).2.2 (by rw [hfe]; exact hblock)
      by_cases hf : (fetchLoopInputs env r).1 ≠ [] ∨ (fetchLoopInputs env r).2.1 ≠ []
      · have htr : (executeToolsLoop env (use :: rest) r).2.2.2.2.2 =
            [Event.blocked use.name,
             Event.cbToolResult use.name (newErrorResult e')] := by
          simp [executeToolsLoop, hens, hf]
        rw [htr]
        simp [traceExecutes]
      · have htr : (executeToolsLoop env (use :: rest) r).2.2.2.2.2 =
            [Event.blocked use.name,
             Event.cbToolResult use.name (newErrorResult e')] ++
            (executeToolsLoop env rest (fetchLoopInputs env r).2.2).2.2.2.2.2 := by
          simp [executeToolsLoop, hens, hf]
        rw [htr, traceExecutes_append, hrec]
        simp [traceExecutes]
    | none =>
      have hname : use.name ≠ name := by
        intro h
        rw [h, hblock] at hens
        exact Option.noConfusion hens
      by_cases hreg : env.registryHas use.name = true
      · have hfe2 :
            (fetchLoopInputs env
              { r with execs := r.execs + 1,
                       toolEnv := env.envAfterExec r.execs r.toolEnv }).2.2.toolEnv
              = r.toolEnv := by
          show env.envAfterExec r.execs r.toolEnv = r.toolEnv
          exact henv r.execs r.toolEnv
        have hrec := executeTools_no_exec_of_blocked env name e henv rest
          (fetchLoopInputs env
            { r with execs := r.execs + 1,
                     toolEnv := env.envAfterExec r.execs r.toolEnv }).2.2
          (by rw [hfe2]; exact hblock)
        by_cases hf :
            (fetchLoopInputs env
              { r with execs := r.execs + 1,
                       toolEnv := env.envAfterExec r.execs r.toolEnv }).1 ≠ [] ∨
            (fetchLoopInputs env
              { r with execs := r.execs + 1,
                       toolEnv := env.envAfterExec r.execs r.toolEnv }).2.1 ≠ []
        · have htr : (executeToolsLoop env (use :: rest) r).2.2.2.2.2 =
              [Event.cbToolCall use.name, Event.execInvoked use.name,
               Event.cbToolResult use.name
                 (env.execTool r.execs use.name use.input)] := by
            simp [executeToolsLoop, hens, hreg, hf]
          rw [htr]
          simp [traceExecutes, hname]
        · have htr : (executeToolsLoop env (use :: rest) r).2.2.2.2.2 =
              [Event.cbToolCall use.name, Event.execInvoked use.name,
               Event.cbToolResult use.name
                 (env.execTool r.execs use.name use.input)] ++
              (executeToolsLoop env rest
                (fetchLoopInputs env
                  { r with execs := r.execs + 1,
                           toolEnv := env.envAfterExec r.execs r.toolEnv }).2.2
                ).2.2.2.2.2 := by
            simp [executeToolsLoop, hens, hreg, hf]
          rw [htr, traceExecutes_append, hrec]
          simp [traceExecutes, hname]
      · have hrec := executeTools_no_exec_of_blocked env name e henv rest
          (fetchLoopInputs env r).2.2 (by rw [hfe]; exact hblock)
        by_cases hf : (fetchLoopInputs env r).1 ≠ [] ∨ (fetchLoopInputs env r).2.1 ≠ []
        · have htr : (executeToolsLoop env (use :: rest) r).2.2.2.2.2 =
              [Event.cbToolCall use.name,
               Event.cbToolResult use.name
                 (newErrorResult ("tool not found".data))] := by
            simp [executeToolsLoop, hens, hreg, hf]
          rw [htr]
          simp [traceExecutes]
        · have htr : (executeToolsLoop env (use :: rest) r).2.2.2.2.2 =
              [Event.cbToolCall use.name,
               Event.cbToolResult use.name
                 (newErrorResult ("tool not found".data))] ++
              (executeToolsLoop env rest (fetchLoopInputs env r).2.2).2.2.2.2.2 := by
            simp [executeToolsLoop, hens, hreg, hf]
          rw [htr, traceExecutes_append, hrec]
          simp [traceExecutes]

/-- C3: when the active skill's `ACTIVE_SKILL_ALLOWED_TOOLS` entry is set
and non-empty and the tool name is not matched by `IsToolAllowed`, the
dispatch records a synthesized error result and never invokes the tool's
`Execute`, and the batch continues with the remaining uses when no loop
inputs arrive; `use_skill` is exempt; `IsToolAllowed` with an empty pattern
list accepts every tool. -/
theorem C3_skill_allowlist_enforcement :
    (∀ tool, IsToolAllowed tool [] = true) ∧
    (∀ tenv, ensureToolAllowedByActiveSkill tenv "use_skill".data = none) ∧
    (∀ (envMap : GoStr → GoStr) name, name ≠ "use_skill".data →
      goTrimSpace (envMap "ACTIVE_SKILL_ALLOWED_TOOLS".data) ≠ [] →
      IsToolAllowed name
        (ParseAllowedToolsEnv
          (goTrimSpace (envMap "ACTIVE_SKILL_ALLOWED_TOOLS".data))) = false →
      ensureToolAllowedByActiveSkill (some envMap) name =
        some ("tool is blocked by skill allowed-tools policy".data)) ∧
    (∀ env use rest r e,
      ensureToolAllowedByActiveSkill r.toolEnv use.name = some e →
      ∃ tail, (executeToolsLoop env (use :: rest) r).1 =
        { id := use.id, name := use.name, input := use.input,
          result := newErrorResult e } :: tail) ∧
    (∀ env use rest r e,
      ensureToolAllowedByActiveSkill r.toolEnv use.name = some e →
      env.steeringRaw r.fetches = none → env.followUpRaw r.fetches = none →
      (executeToolsLoop env (use :: rest) r).1 =
        { id := use.id, name := use.name, input := use.input,
          result := newErrorResult e } ::
          (executeToolsLoop env rest { r with fetches := r.fetches + 1 }).1) ∧
    (∀ env uses r name e, (∀ k te, env.envAfterExec k te = te) →
      ensureToolAllowedByActiveSkill r.toolEnv name = some e →
      traceExecutes (executeToolsLoop env uses r).2.2.2.2.2 name = false) := by
  refine ⟨?_, ?_, ?_, ?_, ?_, ?_⟩
  · intro tool
    simp [IsToolAllowed]
  · intro tenv
    cases tenv <;> simp [ensureToolAllowedByActiveSkill]
  · intro envMap name hname hraw hallow
    simp [ensureToolAllowedByActiveSkill, hname, hraw, hallow]
  · intro env use rest r e hblock
    by_cases hf : (fetchLoopInputs env r).1 ≠ [] ∨ (fetchLoopInputs env r).2.1 ≠ []
    · exact ⟨[], by simp [executeToolsLoop, hblock, hf]⟩
    · exact ⟨(executeToolsLoop env rest (fetchLoopInputs env r).2.2).1,
        by simp [executeToolsLoop, hblock, hf]⟩
  · intro env use rest r e hblock hsteer hfu
    have hfet : fetchLoopInputs env r = ([], [], { r with fetches := r.fetches + 1 }) := by
      simp [fetchLoopInputs, hsteer, hfu]
    simp [executeToolsLoop, hblock, hfet]
  · intro env uses r name e henv hblock
    exact executeTools_no_exec_of_blocked env name e henv uses r hblock

/-- Witness for C3 at a concrete blocked dispatch: the skill allows only
`bash`, the model asks for `write_file`. -/
theorem C3_skill_allowlist_witness :
    (∀ k te, witEnv.envAfterExec k te = te) ∧
    ensureToolAllowedByActiveSkill (some witToolEnvMap) "write_file".data =
      some ("tool is blocked by skill allowed-tools policy".data) ∧
    traceExecutes
      (executeToolsLoop witEnv
        [{ type := contentTypeToolUse, id := "a".data, name := "write_file".data }]
        { state := NewState [], toolEnv := some witToolEnvMap }).2.2.2.2.2
      "write_file".data = false := by
  refine ⟨fun k te => rfl, by decide, ?_⟩
  exact C3_skill_allowlist_enforcement.2.2.2.2.2 witEnv
    [{ type := contentTypeToolUse, id := "a".data, name := "write_file".data }]
    { state := NewState [], toolEnv := some witToolEnvMap }
    "write_file".data ("tool is blocked by skill allowed-tools policy".data)
    (fun k te => rfl) (by decide)

/-! ## Claim C9: compaction failure fallback and persistence -/

/-- C9: with a compactor present, the pipeline never fails because of
compaction: when `Compact` errors the compact plugin passes the
untransformed list through unchanged (and, when the list is within the
truncation cap and validates, the whole pipeline returns it and leaves
`state.Messages` untouched); when `Compact` succeeds the compacted list is
both the pipeline output for the provider call and persisted into
`state.Messages`. -/
theorem C9_compaction_fallback (shouldC : List Message → Bool)
    (compactF : List Message → Option (List Message)) (maxM : Nat)
    (ms : List Message) :
    (∀ st, runTransformPlugins
      (buildTransformPlugins none false (some (shouldC, compactF)) maxM)
      ms st ≠ none) ∧
    (shouldC ms = true → compactF ms = none → ms.length ≤ maxM →
      validateToolPairs ms = true →
      runTransformPlugins
        (buildTransformPlugins none false (some (shouldC, compactF)) maxM)
        ms ms = some (ms, ms)) ∧
    (∀ c, shouldC ms = true → compactF ms = some c → c.length ≤ maxM →
      validateToolPairs c = true →
      runTransformPlugins
        (buildTransformPlugins none false (some (shouldC, compactF)) maxM)
        ms ms = some (c, c)) := by
  refine ⟨?_, ?_, ?_⟩
  · intro st
    by_cases h1 : shouldC ms = true
    · cases h2 : compactF ms with
      | none =>
        by_cases h3 : ms.length ≤ maxM
        · by_cases h4 : validateToolPairs ms = true <;>
            simp [buildTransformPlugins, runTransformPlugins, h1, h2, h3, h4]
        · by_cases h4 : validateToolPairs (truncateMessages ms maxM) = true <;>
            simp [buildTransformPlugins, runTransformPlugins, h1, h2, h3, h4]
      | some c =>
        by_cases h3 : c.length ≤ maxM
        · by_cases h4 : validateToolPairs c = true <;>
            simp [buildTransformPlugins, runTransformPlugins, h1, h2, h3, h4]
        · by_cases h4 : validateToolPairs (truncateMessages c maxM) = true <;>
            simp [buildTransformPlugins, runTransformPlugins, h1, h2, h3, h4]
    · by_cases h3 : ms.length ≤ maxM
      · by_cases h4 : validateToolPairs ms = true <;>
          simp [buildTransformPlugins, runTransformPlugins, h1, h3, h4]
      · by_cases h4 : validateToolPairs (truncateMessages ms maxM) = true <;>
          simp [buildTransformPlugins, runTransformPlugins, h1, h3, h4]
  · intro h1 h2 h3 h4
    simp [buildTransformPlugins, runTransformPlugins, h1, h2, h3, h4]
  · intro c h1 h2 h3 h4
    simp [buildTransformPlugins, runTransformPlugins, h1, h2, h3, h4]

/-- Witness for C9: a two-message history, a compactor that always errors
with threshold 1; the pipeline returns the untransformed list with no
error. -/
theorem C9_compaction_witness :
    ((fun ms : List Message => decide (1 < ms.length))
      [{ role := roleUser, content := [{ type := contentTypeText, text := "hi".data }] },
       { role := roleAssistant, content := [{ type := contentTypeText, text := "yo".data }] }] = true) ∧
    runTransformPlugins
      (buildTransformPlugins none false
        (some (fun ms => decide (1 < ms.length), fun _ => none)) 50)
      [{ role := roleUser, content := [{ type := contentTypeText, text := "hi".data }] },
       { role := roleAssistant, content := [{ type := contentTypeText, text := "yo".data }] }]
      [{ role := roleUser, content := [{ type := contentTypeText, text := "hi".data }] },
       { role := roleAssistant, content := [{ type := contentTypeText, text := "yo".data }] }] =
    some
      ([{ role := roleUser, content := [{ type := contentTypeText, text := "hi".data }] },
        { role := roleAssistant, content := [{ type := contentTypeText, text := "yo".data }] }],
       [{ role := roleUser, content := [{ type := contentTypeText, text := "hi".data }] },
        { role := roleAssistant, content := [{ type := contentTypeText, text := "yo".data }] }]) :=
  ⟨by decide,
   (C9_compaction_fallback (fun ms => decide (1 < ms.length)) (fun _ => none) 50
     [{ role := roleUser, content := [{ type := contentTypeText, text := "hi".data }] },
      { role := roleAssistant, content := [{ type := contentTypeText, text := "yo".data }] }]).2.1
     (by decide) rfl (by decide) (by decide)⟩

/-! ## Claims C7 and C10: loop-input checkpoints and end-turn dispatch -/

theorem foldl_addMessage (ms : List Message) :
    ∀ st : LoopState, (ms.foldl LoopState.addMessage st).messages = st.messages ++ ms := by
  induction ms with
  | nil => intro st; simp
  | cons m t ih =>
    intro st
    simp [List.foldl_cons, ih, LoopState.addMessage]

/-- Characterization of one iteration on an `end_turn` response. -/
theorem step_endTurn_shape (env : LoopEnv) (r : LoopRun)
    (cm pm lm : List Message) (resp : AgentResponse)
    (hc : env.cancelled r.state.iterations = false)
    (htr : env.transform (r.state.iterations + 1) r.state.messages = some (cm, pm))
    (hcv : env.convert (r.state.iterations + 1) cm = some lm)
    (hpv : env.provider r.calls lm = some resp)
    (hsr : resp.stopReason = stopReasonEndTurn) :
    stepIteration env r =
      (let fixed := fixToolUseIDs env.gen resp.content r.seen r.mint
       let respFixed : AgentResponse := { resp with content := fixed.1 }
       let st1 : LoopState :=
         { messages := pm ++ [respFixed.toMessage],
           iterations := r.state.iterations + 1,
           toolCalls := r.state.toolCalls,
           lastResponse := respFixed,
           inputTokens := r.state.inputTokens + resp.usage.inputTokens,
           outputTokens := r.state.outputTokens + resp.usage.outputTokens }
       let r1 : LoopRun :=
         { state := st1, seen := fixed.2.1, mint := fixed.2.2,
           calls := r.calls + 1, fetches := r.fetches + 1, execs := r.execs,
           toolEnv := r.toolEnv }
       let s := match env.steeringRaw r.fetches with
         | none => []
         | some ms => normalizeLoopInputMessages ms
       let f := match env.followUpRaw r.fetches with
         | none => []
         | some ms => normalizeLoopInputMessages ms
       let tr0 := [Event.providerCall, Event.added respFixed.toMessage,
         Event.cbMessage respFixed.toMessage]
       if s ≠ [] ∨ f ≠ [] then
         let ap := applyLoopInputs r1 s f
         StepOut.cont ap.1 (tr0 ++ ap.2)
       else StepOut.finished st1.toResult none tr0) := by
  unfold stepIteration
  rw [hc]
  simp only [Bool.false_eq_true, if_false, LoopState.incrementIteration]
  simp only [LoopState.updateUsage, LoopState.addMessage, AgentResponse.toMessage,
    fetchLoopInputs]
  rw [htr]
  simp only []
  rw [hcv]
  simp only []
  rw [hpv]
  simp only [hsr, if_pos rfl]
  rfl

/-- C7: loop-input normalization drops empty-content messages and defaults
the missing role to `user`; application appends all steering before all
follow-up and fires each non-empty batch's callback; an `end_turn` response
with both fetchers empty ends the run successfully with that assistant
message as the final message. -/
theorem C7_loop_input_checkpoints :
    (∀ msgs, normalizeLoopInputMessages msgs =
      (msgs.filter (fun m => m.content ≠ [])).map
        (fun m => if m.role = [] then { m with role := roleUser } else m)) ∧
    (∀ r steering followUp,
      (applyLoopInputs r steering followUp).1.state.messages =
        r.state.messages ++ steering ++ followUp ∧
      (applyLoopInputs r steering followUp).2 =
        steering.map Event.added ++
          (if steering = [] then [] else [Event.cbSteering steering]) ++
        followUp.map Event.added ++
          (if followUp = [] then [] else [Event.cbFollowUp followUp])) ∧
    (∀ env r cm pm lm resp,
      env.cancelled r.state.iterations = false →
      env.transform (r.state.iterations + 1) r.state.messages = some (cm, pm) →
      env.convert (r.state.iterations + 1) cm = some lm →
      env.provider r.calls lm = some resp →
      resp.stopReason = stopReasonEndTurn →
      (match env.steeringRaw r.fetches with
        | none => []
        | some ms => normalizeLoopInputMessages ms) = [] →
      (match env.followUpRaw r.fetches with
        | none => []
        | some ms => normalizeLoopInputMessages ms) = [] →
      ∃ res, stepIteration env r = .finished res none
          [Event.providerCall,
           Event.added (AgentResponse.toMessage
             { resp with content := (fixToolUseIDs env.gen resp.content r.seen r.mint).1 }),
           Event.cbMessage (AgentResponse.toMessage
             { resp with content := (fixToolUseIDs env.gen resp.content r.seen r.mint).1 })] ∧
        res.finalMessage = AgentResponse.toMessage
          { resp with content := (fixToolUseIDs env.gen resp.content r.seen r.mint).1 } ∧
        res.messages = pm ++ [AgentResponse.toMessage
          { resp with content := (fixToolUseIDs env.gen resp.content r.seen r.mint).1 }]) := by
  refine ⟨?_, ?_, ?_⟩
  · intro msgs
    induction msgs with
    | nil => rfl
    | cons m t ih =>
      by_cases h : m.content = [] <;> by_cases h2 : m.role = [] <;>
        simp [normalizeLoopInputMessages, h, h2] at ih ⊢ <;> exact ih
  · intro r steering followUp
    constructor
    · simp [applyLoopInputs, foldl_addMessage]
    · rfl
  · intro env r cm pm lm resp hc htr hcv hpv hsr hs hf
    rw [step_endTurn_shape env r cm pm lm resp hc htr hcv hpv hsr]
    have hcond : ¬((match env.steeringRaw r.fetches with
        | none => []
        | some ms => normalizeLoopInputMessages ms) ≠ [] ∨
      (match env.followUpRaw r.fetches with
        | none => []
        | some ms => normalizeLoopInputMessages ms) ≠ []) := by
      simp [hs, hf]
    simp only [if_neg hcond]
    exact ⟨_, rfl, rfl, rfl⟩

/-- Witness for C7's end-turn conjunct at a concrete environment. -/
theorem C7_loop_input_witness :
    (witEnv.provider 1 [] =
      some { stopReason := stopReasonEndTurn,
             content := [{ type := contentTypeText, text := "done".data }] }) ∧
    (∃ res, stepIteration witEnv { state := NewState [], calls := 1 } =
        .finished res none
          [Event.providerCall,
           Event.added (AgentResponse.toMessage
             { stopReason := stopReasonEndTurn,
               content := [{ type := contentTypeText, text := "done".data }] }),
           Event.cbMessage (AgentResponse.toMessage
             { stopReason := stopReasonEndTurn,
               content := [{ type := contentTypeText, text := "done".data }] })] ∧
        res.finalMessage = AgentResponse.toMessage
          { stopReason := stopReasonEndTurn,
            content := [{ type := contentTypeText, text := "done".data }] } ∧
        res.messages = [] ++ [AgentResponse.toMessage
          { stopReason := stopReasonEndTurn,
            content := [{ type := contentTypeText, text := "done".data }] }]) :=
  ⟨rfl,
   C7_loop_input_checkpoints.2.2 witEnv { state := NewState [], calls := 1 }
     [] [] [] _ rfl rfl rfl rfl rfl rfl rfl⟩

theorem traceExecutes_applyLoopInputs (r : LoopRun) (s f : List Message)
    (n : GoStr) : traceExecutes (applyLoopInputs r s f).2 n = false := by
  simp only [applyLoopInputs, traceExecutes]
  rw [List.any_eq_false]
  intro e he
  simp only [List.mem_append] at he
  rcases he with ((h1 | h2) | h3) | h4
  · rcases List.mem_map.1 h1 with ⟨m, _, rfl⟩
    simp
  · revert h2
    split
    · simp
    · intro h2
      simp only [List.mem_singleton] at h2
      subst h2
      simp
  · rcases List.mem_map.1 h3 with ⟨m, _, rfl⟩
    simp
  · revert h4
    split
    · simp
    · intro h4
      simp only [List.mem_singleton] at h4
      subst h4
      simp

/-- C10: on an `end_turn` response no contained `tool_use` block is ever
executed: the iteration emits no `Execute` invocation, and either applies
fetched loop inputs and continues or returns success. -/
theorem C10_endTurn_shadows_tool_use (env : LoopEnv) (r : LoopRun)
    (cm pm lm : List Message) (resp : AgentResponse)
    (hc : env.cancelled r.state.iterations = false)
    (htr : env.transform (r.state.iterations + 1) r.state.messages = some (cm, pm))
    (hcv : env.convert (r.state.iterations + 1) cm = some lm)
    (hpv : env.provider r.calls lm = some resp)
    (hsr : resp.stopReason = stopReasonEndTurn) :
    (∀ n, traceExecutes (stepIteration env r).trace n = false) ∧
    (((match env.steeringRaw r.fetches with
        | none => []
        | some ms => normalizeLoopInputMessages ms) = []) →
     ((match env.followUpRaw r.fetches with
        | none => []
        | some ms => normalizeLoopInputMessages ms) = []) →
      ∃ res tr, stepIteration env r = .finished res none tr) ∧
    (((match env.steeringRaw r.fetches with
        | none => []
        | some ms => normalizeLoopInputMessages ms) ≠ [] ∨
      (match env.followUpRaw r.fetches with
        | none => []
        | some ms => normalizeLoopInputMessages ms) ≠ []) →
      ∃ r' tr, stepIteration env r = .cont r' tr) := by
  rw [step_endTurn_shape env r cm pm lm resp hc htr hcv hpv hsr]
  refine ⟨?_, ?_, ?_⟩
  · intro n
    by_cases h : (match env.steeringRaw r.fetches with
        | none => []
        | some ms => normalizeLoopInputMessages ms) ≠ [] ∨
      (match env.followUpRaw r.fetches with
        | none => []
        | some ms => normalizeLoopInputMessages ms) ≠ []
    · simp only [if_pos h, StepOut.trace]
      rw [traceExecutes_append, traceExecutes_applyLoopInputs]
      simp [traceExecutes]
    · simp only [if_neg h, StepOut.trace]
      simp [traceExecutes]
  · intro hs hf
    have hcond : ¬((match env.steeringRaw r.fetches with
        | none => []
        | some ms => normalizeLoopInputMessages ms) ≠ [] ∨
      (match env.followUpRaw r.fetches with
        | none => []
        | some ms => normalizeLoopInputMessages ms) ≠ []) := by
      simp [hs, hf]
    simp only [if_neg hcond]
    exact ⟨_, _, rfl⟩
  · intro h
    simp only [if_pos h]
    exact ⟨_, _, rfl⟩

/-- Witness for C10 at a concrete end-turn response that does contain a
`tool_use` block. -/
theorem C10_endTurn_witness :
    (witEnvEndTurnToolUse.cancelled 0 = false) ∧
    (∀ n, traceExecutes
      (stepIteration witEnvEndTurnToolUse { state := NewState [] }).trace n
        = false) :=
  ⟨rfl,
   (C10_endTurn_shadows_tool_use witEnvEndTurnToolUse { state := NewState [] }
     [] [] []
     { stopReason := stopReasonEndTurn,
       content :=
         [{ type := contentTypeToolUse, id := "zz".data, name := "noop".data }] }
     rfl rfl rfl rfl rfl).1⟩

/-! ## Claim C6: tool-result message assembly -/

theorem applyLoopInputs_messages (r : LoopRun) (s f : List Message) :
    (applyLoopInputs r s f).1.state.messages = r.state.messages ++ s ++ f := by
  simp [applyLoopInputs, foldl_addMessage]

theorem fetchLoopInputs_fields (env : LoopEnv) (r : LoopRun) :
    (fetchLoopInputs env r).2.2.state = r.state ∧
    (fetchLoopInputs env r).2.2.seen = r.seen ∧
    (fetchLoopInputs env r).2.2.mint = r.mint ∧
    (fetchLoopInputs env r).2.2.calls = r.calls :=
  ⟨rfl, rfl, rfl, rfl⟩

theorem executeTools_preserves (env : LoopEnv) :
    ∀ (uses : List ContentBlock) (r : LoopRun),
      (executeToolsLoop env uses r).2.2.2.2.1.state = r.state ∧
      (executeToolsLoop env uses r).2.2.2.2.1.seen = r.seen ∧
      (executeToolsLoop env uses r).2.2.2.2.1.mint = r.mint ∧
      (executeToolsLoop env uses r).2.2.2.2.1.calls = r.calls
  | [], r => ⟨rfl, rfl, rfl, rfl⟩
  | use :: rest, r => by
    cases hens : ensureToolAllowedByActiveSkill r.toolEnv use.name with
    | some e =>
      by_cases hf : (fetchLoopInputs env r).1 ≠ [] ∨ (fetchLoopInputs env r).2.1 ≠ []
      · simp only [executeToolsLoop, hens]
        rw [if_pos hf]
        exact ⟨rfl, rfl, rfl, rfl⟩
      · have ih := executeTools_preserves env rest (fetchLoopInputs env r).2.2
        simp only [executeToolsLoop, hens]
        rw [if_neg hf]
        exact ⟨ih.1, ih.2.1, ih.2.2.1, ih.2.2.2⟩
    | none =>
      by_cases hreg : env.registryHas use.name = true
      · by_cases hf :
            (fetchLoopInputs env
              { r with execs := r.execs + 1,
                       toolEnv := env.envAfterExec r.execs r.toolEnv }).1 ≠ [] ∨
            (fetchLoopInputs env
              { r with execs := r.execs + 1,
                       toolEnv := env.envAfterExec r.execs r.toolEnv }).2.1 ≠ []
        · simp only [executeToolsLoop, hens, hreg, eq_self_iff_true, if_true]
          rw [if_pos hf]
          exact ⟨rfl, rfl, rfl, rfl⟩
        · have ih := executeTools_preserves env rest
            (fetchLoopInputs env
              { r with execs := r.execs + 1,
                       toolEnv := env.envAfterExec r.execs r.toolEnv }).2.2
          simp only [executeToolsLoop, hens, hreg, eq_self_iff_true, if_true]
          rw [if_neg hf]
          exact ⟨ih.1, ih.2.1, ih.2.2.1, ih.2.2.2⟩
      · by_cases hf : (fetchLoopInputs env r).1 ≠ [] ∨ (fetchLoopInputs env r).2.1 ≠ []
        · simp only [executeToolsLoop, hens, hreg, Bool.false_eq_true, if_false]
          rw [if_pos hf]
          exact ⟨rfl, rfl, rfl, rfl⟩
        · have ih := executeTools_preserves env rest (fetchLoopInputs env r).2.2
          simp only [executeToolsLoop, hens, hreg, Bool.false_eq_true, if_false]
          rw [if_neg hf]
          exact ⟨ih.1, ih.2.1, ih.2.2.1, ih.2.2.2⟩

theorem executeTools_interrupted_nonempty (env : LoopEnv) :
    ∀ (uses : List ContentBlock) (r : LoopRun),
      (executeToolsLoop env uses r).2.2.2.1 = true →
      (executeToolsLoop env uses r).2.1 ≠ [] ∨ (executeToolsLoop env uses r).2.2.1 ≠ []
  | [], r => by intro hint; exact absurd hint (by simp [executeToolsLoop])
  | use :: rest, r => by
    intro hint
    cases hens : ensureToolAllowedByActiveSkill r.toolEnv use.name with
    | some e =>
      by_cases hf : (fetchLoopInputs env r).1 ≠ [] ∨ (fetchLoopInputs env r).2.1 ≠ []
      · simp only [executeToolsLoop, hens]
        rw [if_pos hf]
        exact hf
      · have ih := executeTools_interrupted_nonempty env rest (fetchLoopInputs env r).2.2
        simp only [executeToolsLoop, hens] at hint ⊢
        rw [if_neg hf] at hint ⊢
        exact ih hint
    | none =>
      by_cases hreg : env.registryHas use.name = true
      · by_cases hf :
            (fetchLoopInputs env
              { r with execs := r.execs + 1,
                       toolEnv := env.envAfterExec r.execs r.toolEnv }).1 ≠ [] ∨
            (fetchLoopInputs env
              { r with execs := r.execs + 1,
                       toolEnv := env.envAfterExec r.execs r.toolEnv }).2.1 ≠ []
        · simp only [executeToolsLoop, hens, hreg, eq_self_iff_true, if_true]
          rw [if_pos hf]
          exact hf
        · have ih := executeTools_interrupted_nonempty env rest
            (fetchLoopInputs env
              { r with execs := r.execs + 1,
                       toolEnv := env.envAfterExec r.execs r.toolEnv }).2.2
          simp only [executeToolsLoop, hens, hreg, eq_self_iff_true, if_true] at hint ⊢
          rw [if_neg hf] at hint ⊢
          exact ih hint
      · by_cases hf : (fetchLoopInputs env r).1 ≠ [] ∨ (fetchLoopInputs env r).2.1 ≠ []
        · simp only [executeToolsLoop, hens, hreg, Bool.false_eq_true, if_false]
          rw [if_pos hf]
          exact hf
        · have ih := executeTools_interrupted_nonempty env rest (fetchLoopInputs env r).2.2
          simp only [executeToolsLoop, hens, hreg, Bool.false_eq_true, if_false] at hint ⊢
          rw [if_neg hf] at hint ⊢
          exact ih hint

theorem executeTools_result_ids (env : LoopEnv) :
    ∀ (uses : List ContentBlock) (r : LoopRun),
      ∃ k, k ≤ uses.length ∧
        (executeToolsLoop env uses r).1.map (fun res => res.id) =
          (uses.take k).map (fun b => b.id) ∧
        ((executeToolsLoop env uses r).2.2.2.1 = false → k = uses.length)
  | [], r => ⟨0, by simp, by simp [executeToolsLoop], by simp [executeToolsLoop]⟩
  | use :: rest, r => by
    cases hens : ensureToolAllowedByActiveSkill r.toolEnv use.name with
    | some e =>
      by_cases hf : (fetchLoopInputs env r).1 ≠ [] ∨ (fetchLoopInputs env r).2.1 ≠ []
      · refine ⟨1, by simp, ?_, ?_⟩ <;>
          (simp only [executeToolsLoop, hens]; rw [if_pos hf]; simp)
      · obtain ⟨k, hk, hmap, hfin⟩ :=
          executeTools_result_ids env rest (fetchLoopInputs env r).2.2
        refine ⟨k + 1, by simpa using hk, ?_, ?_⟩
        · simp only [executeToolsLoop, hens]
          rw [if_neg hf]
          simp [hmap]
        · intro hflag
          simp only [executeToolsLoop, hens] at hflag
          rw [if_neg hf] at hflag
          simp [hfin hflag]
    | none =>
      by_cases hreg : env.registryHas use.name = true
      · by_cases hf :
            (fetchLoopInputs env
              { r with execs := r.execs + 1,
                       toolEnv := env.envAfterExec r.execs r.toolEnv }).1 ≠ [] ∨
            (fetchLoopInputs env
              { r with execs := r.execs + 1,
                       toolEnv := env.envAfterExec r.execs r.toolEnv }).2.1 ≠ []
        · refine ⟨1, by simp, ?_, ?_⟩ <;>
            (simp only [executeToolsLoop, hens, hreg, eq_self_iff_true, if_true];
             rw [if_pos hf]; simp)
        · obtain ⟨k, hk, hmap, hfin⟩ := executeTools_result_ids env rest
            (fetchLoopInputs env
              { r with execs := r.execs + 1,
                       toolEnv := env.envAfterExec r.execs r.toolEnv }).2.2
          refine ⟨k + 1, by simpa using hk, ?_, ?_⟩
          · simp only [executeToolsLoop, hens, hreg, eq_self_iff_true, if_true]
            rw [if_neg hf]
            simp [hmap]
          · intro hflag
            simp only [executeToolsLoop, hens, hreg, eq_self_iff_true, if_true] at hflag
            rw [if_neg hf] at hflag
            simp [hfin hflag]
      · by_cases hf : (fetchLoopInputs env r).1 ≠ [] ∨ (fetchLoopInputs env r).2.1 ≠ []
        · refine ⟨1, by simp, ?_, ?_⟩ <;>
            (simp only [executeToolsLoop, hens, hreg, Bool.false_eq_true, if_false];
             rw [if_pos hf]; simp)
        · obtain ⟨k, hk, hmap, hfin⟩ :=
            executeTools_result_ids env rest (fetchLoopInputs env r).2.2
          refine ⟨k + 1, by simpa using hk, ?_, ?_⟩
          · simp only [executeToolsLoop, hens, hreg, Bool.false_eq_true, if_false]
            rw [if_neg hf]
            simp [hmap]
          · intro hflag
            simp only [executeToolsLoop, hens, hreg, Bool.false_eq_true, if_false] at hflag
            rw [if_neg hf] at hflag
            simp [hfin hflag]

theorem foldl_addToolCall_fields (results : List ToolExecResult) :
    ∀ st : LoopState,
      (results.foldl (fun st res => st.addToolCall
        { name := res.name, input := res.input, result := res.result }) st).messages
        = st.messages ∧
      (results.foldl (fun st res => st.addToolCall
        { name := res.name, input := res.input, result := res.result }) st).iterations
        = st.iterations := by
  induction results with
  | nil => intro st; exact ⟨rfl, rfl⟩
  | cons res t ih =>
    intro st
    simpa [LoopState.addToolCall] using ih (st.addToolCall
      { name := res.name, input := res.input, result := res.result })

/-- Characterization of one iteration on a tool-use turn. -/
theorem step_toolUse_shape (env : LoopEnv) (r : LoopRun)
    (cm pm lm : List Message) (resp : AgentResponse)
    (hc : env.cancelled r.state.iterations = false)
    (htr : env.transform (r.state.iterations + 1) r.state.messages = some (cm, pm))
    (hcv : env.convert (r.state.iterations + 1) cm = some lm)
    (hpv : env.provider r.calls lm = some resp)
    (hsr1 : resp.stopReason ≠ stopReasonEndTurn)
    (hsr2 : resp.stopReason ≠ stopReasonMaxTokens)
    (htool : resp.stopReason = stopReasonToolUse ∨
      AgentResponse.hasToolUse
        { resp with content := (fixToolUseIDs env.gen resp.content r.seen r.mint).1 }
        = true) :
    stepIteration env r =
      (let fixed := fixToolUseIDs env.gen resp.content r.seen r.mint
       let respFixed : AgentResponse := { resp with content := fixed.1 }
       let st1 : LoopState :=
         { messages := pm ++ [respFixed.toMessage],
           iterations := r.state.iterations + 1,
           toolCalls := r.state.toolCalls,
           lastResponse := respFixed,
           inputTokens := r.state.inputTokens + resp.usage.inputTokens,
           outputTokens := r.state.outputTokens + resp.usage.outputTokens }
       let r1 : LoopRun :=
         { state := st1, seen := fixed.2.1, mint := fixed.2.2,
           calls := r.calls + 1, fetches := r.fetches, execs := r.execs,
           toolEnv := r.toolEnv }
       let tr0 := [Event.providerCall, Event.added respFixed.toMessage,
         Event.cbMessage respFixed.toMessage]
       let out := executeToolsLoop env respFixed.getToolUses r1
       let st2 := out.1.foldl (fun st res => st.addToolCall
         { name := res.name, input := res.input, result := res.result })
         out.2.2.2.2.1.state
       let resultMsg := buildToolResultMessage out.1
       let r2 : LoopRun := { out.2.2.2.2.1 with state := st2.addMessage resultMsg }
       let tr := tr0 ++ out.2.2.2.2.2 ++ [Event.added resultMsg]
       if out.2.2.2.1 then
         let ap := applyLoopInputs r2 out.2.1 out.2.2.1
         StepOut.cont ap.1 (tr ++ ap.2)
       else StepOut.cont r2 tr) := by
  unfold stepIteration
  rw [hc]
  simp only [Bool.false_eq_true, if_false, LoopState.incrementIteration]
  simp only [LoopState.updateUsage, LoopState.addMessage, AgentResponse.toMessage]
  rw [htr]
  simp only []
  rw [hcv]
  simp only []
  rw [hpv]
  simp only [if_neg hsr1, if_neg hsr2, if_pos htool]

/-- C6: a tool-use turn appends the assistant message and then exactly one
user-role message whose `tool_result` blocks correspond one-to-one, in
order, to the `tool_use` blocks processed that turn (all of them when the
batch is not interrupted by loop inputs; a prefix otherwise), followed only
by any applied loop-input messages. -/
theorem C6_tool_result_order (env : LoopEnv) (r : LoopRun)
    (cm pm lm : List Message) (resp : AgentResponse)
    (hc : env.cancelled r.state.iterations = false)
    (htr : env.transform (r.state.iterations + 1) r.state.messages = some (cm, pm))
    (hcv : env.convert (r.state.iterations + 1) cm = some lm)
    (hpv : env.provider r.calls lm = some resp)
    (hsr1 : resp.stopReason ≠ stopReasonEndTurn)
    (hsr2 : resp.stopReason ≠ stopReasonMaxTokens)
    (htool : resp.stopReason = stopReasonToolUse ∨
      AgentResponse.hasToolUse
        { resp with content := (fixToolUseIDs env.gen resp.content r.seen r.mint).1 }
        = true) :
    ∃ results inputs r' tr,
      stepIteration env r = .cont r' tr ∧
      r'.state.messages =
        pm ++ [AgentResponse.toMessage
            { resp with content := (fixToolUseIDs env.gen resp.content r.seen r.mint).1 }]
          ++ [buildToolResultMessage results] ++ inputs ∧
      (buildToolResultMessage results).role = roleUser ∧
      (buildToolResultMessage results).content.map (fun b => b.toolUseID) =
        results.map (fun res => res.id) ∧
      (∀ b ∈ (buildToolResultMessage results).content,
        b.type = contentTypeToolResult) ∧
      ∃ k, k ≤ (AgentResponse.getToolUses
          { resp with content := (fixToolUseIDs env.gen resp.content r.seen r.mint).1 }).length ∧
        results.map (fun res => res.id) =
          ((AgentResponse.getToolUses
            { resp with content := (fixToolUseIDs env.gen resp.content r.seen r.mint).1 }).take k).map
            (fun b => b.id) ∧
        (inputs = [] → k = (AgentResponse.getToolUses
          { resp with content := (fixToolUseIDs env.gen resp.content r.seen r.mint).1 }).length) := by
  rw [step_toolUse_shape env r cm pm lm resp hc htr hcv hpv hsr1 hsr2 htool]
  simp only []
  set fixed := fixToolUseIDs env.gen resp.content r.seen r.mint with hfix
  set respFixed : AgentResponse := { resp with content := fixed.1 } with hrf
  set st1 : LoopState :=
    { messages := pm ++ [respFixed.toMessage],
      iterations := r.state.iterations + 1,
      toolCalls := r.state.toolCalls,
      lastResponse := respFixed,
      inputTokens := r.state.inputTokens + resp.usage.inputTokens,
      outputTokens := r.state.outputTokens + resp.usage.outputTokens } with hst1
  set r1 : LoopRun :=
    { state := st1, seen := fixed.2.1, mint := fixed.2.2,
      calls := r.calls + 1, fetches := r.fetches, execs := r.execs,
      toolEnv := r.toolEnv } with hr1
  set out := executeToolsLoop env respFixed.getToolUses r1 with hout
  obtain ⟨k, hk, hmap, hfin⟩ := executeTools_result_ids env respFixed.getToolUses r1
  have hstate : out.2.2.2.2.1.state = st1 := (executeTools_preserves env _ r1).1
  have hmsg2 : (out.1.foldl (fun st res => st.addToolCall
      { name := res.name, input := res.input, result := res.result })
      out.2.2.2.2.1.state).messages = st1.messages := by
    rw [(foldl_addToolCall_fields out.1 out.2.2.2.2.1.state).1, hstate]
  by_cases hint : out.2.2.2.1 = true
  · simp only [hint, eq_self_iff_true, if_true]
    refine ⟨out.1, out.2.1 ++ out.2.2.1, _, _, rfl, ?_, rfl, ?_, ?_, k, hk, hmap, ?_⟩
    · rw [applyLoopInputs_messages]
      simp only [LoopState.addMessage, hmsg2, hst1]
      simp [List.append_assoc]
    · simp [buildToolResultMessage, List.map_map]
    · intro b hb
      simp only [buildToolResultMessage] at hb
      rcases List.mem_map.1 hb with ⟨res, _, rfl⟩
      rfl
    · intro hemp
      rcases executeTools_interrupted_nonempty env _ r1 hint with h | h
      · exact absurd (List.append_eq_nil.1 hemp).1 h
      · exact absurd (List.append_eq_nil.1 hemp).2 h
  · rw [Bool.not_eq_true] at hint
    simp only [hint, Bool.false_eq_true, if_false]
    refine ⟨out.1, [], _, _, rfl, ?_, rfl, ?_, ?_, k, hk, hmap, ?_⟩
    · simp only [LoopState.addMessage, hmsg2, hst1]
      simp [List.append_assoc]
    · simp [buildToolResultMessage, List.map_map]
    · intro b hb
      simp only [buildToolResultMessage] at hb
      rcases List.mem_map.1 hb with ⟨res, _, rfl⟩
      rfl
    · intro _
      exact hfin hint

/-- Witness for C6 at a concrete two-tool turn with no loop inputs. -/
theorem C6_tool_result_witness :
    (witEnv.provider 0 [] = some witToolResp) ∧
    (∃ results inputs r' tr,
      stepIteration witEnv (initRun {}) = .cont r' tr ∧
      r'.state.messages =
        [] ++ [AgentResponse.toMessage
            { witToolResp with
              content := (fixToolUseIDs witEnv.gen witToolResp.content [] 0).1 }]
          ++ [buildToolResultMessage results] ++ inputs ∧
      (buildToolResultMessage results).role = roleUser ∧
      (buildToolResultMessage results).content.map (fun b => b.toolUseID) =
        results.map (fun res => res.id) ∧
      (∀ b ∈ (buildToolResultMessage results).content,
        b.type = contentTypeToolResult) ∧
      ∃ k, k ≤ (AgentResponse.getToolUses
          { witToolResp with
            content := (fixToolUseIDs witEnv.gen witToolResp.content [] 0).1 }).length ∧
        results.map (fun res => res.id) =
          ((AgentResponse.getToolUses
            { witToolResp with
              content := (fixToolUseIDs witEnv.gen witToolResp.content [] 0).1 }).take k).map
            (fun b => b.id) ∧
        (inputs = [] → k = (AgentResponse.getToolUses
          { witToolResp with
            content := (fixToolUseIDs witEnv.gen witToolResp.content [] 0).1 }).length)) :=
  ⟨rfl,
   C6_tool_result_order witEnv (initRun {}) [] [] [] witToolResp
     rfl rfl rfl rfl (by decide) (by decide) (Or.inl rfl)⟩

/-! ## Claim C2: iteration cap bounds provider calls -/

theorem countProviderCalls_append (a b : List Event) :
    countProviderCalls (a ++ b) = countProviderCalls a + countProviderCalls b := by
  simp [countProviderCalls, List.countP_append]

theorem foldl_addMessage_iterations (ms : List Message) :
    ∀ st : LoopState, (ms.foldl LoopState.addMessage st).iterations = st.iterations := by
  induction ms with
  | nil => intro st; rfl
  | cons m t ih => intro st; simpa [LoopState.addMessage] using ih (st.addMessage m)

theorem applyLoopInputs_iterations (r : LoopRun) (s f : List Message) :
    (applyLoopInputs r s f).1.state.iterations = r.state.iterations := by
  simp [applyLoopInputs, foldl_addMessage_iterations]

theorem countProviderCalls_applyLoopInputs (r : LoopRun) (s f : List Message) :
    countProviderCalls (applyLoopInputs r s f).2 = 0 := by
  simp only [applyLoopInputs, countProviderCalls]
  rw [List.countP_eq_zero]
  intro e he
  simp only [List.mem_append] at he
  rcases he with ((h1 | h2) | h3) | h4
  · rcases List.mem_map.1 h1 with ⟨m, _, rfl⟩
    simp
  · revert h2
    split
    · simp
    · intro h2
      simp only [List.mem_singleton] at h2
      subst h2
      simp
  · rcases List.mem_map.1 h3 with ⟨m, _, rfl⟩
    simp
  · revert h4
    split
    · simp
    · intro h4
      simp only [List.mem_singleton] at h4
      subst h4
      simp

theorem countProviderCalls_executeTools (env : LoopEnv) :
    ∀ (uses : List ContentBlock) (r : LoopRun),
      countProviderCalls (executeToolsLoop env uses r).2.2.2.2.2 = 0
  | [], r => by simp [executeToolsLoop, countProviderCalls]
  | use :: rest, r => by
    cases hens : ensureToolAllowedByActiveSkill r.toolEnv use.name with
    | some e =>
      by_cases hf : (fetchLoopInputs env r).1 ≠ [] ∨ (fetchLoopInputs env r).2.1 ≠ []
      · simp only [executeToolsLoop, hens]
        rw [if_pos hf]
        simp [countProviderCalls]
      · have ih := countProviderCalls_executeTools env rest (fetchLoopInputs env r).2.2
        simp only [executeToolsLoop, hens]
        rw [if_neg hf]
        show countProviderCalls (_ ++ _) = 0
        rw [countProviderCalls_append, ih]
        simp [countProviderCalls]
    | none =>
      by_cases hreg : env.registryHas use.name = true
      · by_cases hf :
            (fetchLoopInputs env
              { r with execs := r.execs + 1,
                       toolEnv := env.envAfterExec r.execs r.toolEnv }).1 ≠ [] ∨
            (fetchLoopInputs env
              { r with execs := r.execs + 1,
                       toolEnv := env.envAfterExec r.execs r.toolEnv }).2.1 ≠ []
        · simp only [executeToolsLoop, hens, hreg, eq_self_iff_true, if_true]
          rw [if_pos hf]
          simp [countProviderCalls]
        · have ih := countProviderCalls_executeTools env rest
            (fetchLoopInputs env
              { r with execs := r.execs + 1,
                       toolEnv := env.envAfterExec r.execs r.toolEnv }).2.2
          simp only [executeToolsLoop, hens, hreg, eq_self_iff_true, if_true]
          rw [if_neg hf]
          show countProviderCalls (_ ++ _) = 0
          rw [countProviderCalls_append, ih]
          simp [countProviderCalls]
      · by_cases hf : (fetchLoopInputs env r).1 ≠ [] ∨ (fetchLoopInputs env r).2.1 ≠ []
        · simp only [executeToolsLoop, hens, hreg, Bool.false_eq_true, if_false]
          rw [if_pos hf]
          simp [countProviderCalls]
        · have ih := countProviderCalls_executeTools env rest (fetchLoopInputs env r).2.2
          simp only [executeToolsLoop, hens, hreg, Bool.false_eq_true, if_false]
          rw [if_neg hf]
          show countProviderCalls (_ ++ _) = 0
          rw [countProviderCalls_append, ih]
          simp [countProviderCalls]

theorem fetchLoopInputs_state (env : LoopEnv) (r : LoopRun) :
    (fetchLoopInputs env r).2.2.state = r.state := rfl

theorem step_basic (env : LoopEnv) (r : LoopRun) :
    (∀ r' tr, stepIteration env r = .cont r' tr →
      countProviderCalls tr = 1 ∧ r'.state.iterations = r.state.iterations + 1) ∧
    (∀ res e tr, stepIteration env r = .finished res e tr →
      countProviderCalls tr ≤ 1 ∧ e ≠ some RunErr.iterationLimit) := by
  have hpres := fun uses rr => (executeTools_preserves env uses rr).1
  have hexe := countProviderCalls_executeTools env
  constructor
  · intro r' tr h
    unfold stepIteration at h
    simp only [] at h
    repeat' split at h
    all_goals injection h
    all_goals (rename_i h1 h2; subst h1; subst h2)
    all_goals refine And.intro ?_ ?_
    all_goals try (simp only [countProviderCalls_append,
      countProviderCalls_applyLoopInputs, hexe]; simp [countProviderCalls])
    all_goals simp [countProviderCalls, applyLoopInputs_iterations,
      fetchLoopInputs_state, LoopState.addMessage, foldl_addToolCall_fields,
      hpres, LoopState.incrementIteration, LoopState.updateUsage]
  · intro res e tr h
    unfold stepIteration at h
    simp only [] at h
    repeat' split at h
    all_goals injection h
    all_goals (rename_i h1 h2 h3; subst h2; subst h3)
    all_goals exact ⟨by simp [countProviderCalls], by decide⟩

theorem runLoop_bound (env : LoopEnv) (maxIter : Int) :
    ∀ (fuel : Nat) (r : LoopRun),
      countProviderCalls (runLoop env true maxIter fuel r).2 ≤
        (maxIter - r.state.iterations).toNat ∧
      ((maxIter - r.state.iterations).toNat ≤ fuel →
        (runLoop env true maxIter fuel r).1 ≠ .fuelOut) ∧
      (∀ res, (runLoop env true maxIter fuel r).1 = .ret res (some .iterationLimit) →
        countProviderCalls (runLoop env true maxIter fuel r).2 =
          (maxIter - r.state.iterations).toNat)
  | fuel, r => by
    by_cases hcap : maxIter ≤ (r.state.iterations : Int)
    · have hred : runLoop env true maxIter fuel r =
          (.ret r.state.toResult (some .iterationLimit), []) := by
        unfold runLoop
        rw [if_pos ⟨rfl, hcap⟩]
      rw [hred]
      have h0 : (maxIter - r.state.iterations).toNat = 0 := by omega
      refine ⟨by simp [countProviderCalls, h0], by simp, ?_⟩
      intro res _
      simp [countProviderCalls, h0]
    · have hd : 0 < (maxIter - r.state.iterations).toNat := by omega
      have hguard : ¬(true = true ∧ maxIter ≤ (r.state.iterations : Int)) := by
        intro hg
        exact hcap hg.2
      cases fuel with
      | zero =>
        have hred : runLoop env true maxIter 0 r = (.fuelOut, []) := by
          unfold runLoop
          rw [if_neg hguard]
        rw [hred]
        refine ⟨by simp [countProviderCalls], ?_, ?_⟩
        · intro habs
          omega
        · intro res h
          exact absurd h (by simp)
      | succ f =>
        have hstep := step_basic env r
        cases hso : stepIteration env r with
        | finished res e tr =>
          have hred : runLoop env true maxIter (f + 1) r = (.ret res e, tr) := by
            unfold runLoop
            rw [if_neg hguard]
            simp [hso]
          obtain ⟨hle, hne⟩ := hstep.2 res e tr hso
          rw [hred]
          dsimp only
          refine ⟨by omega, by simp, ?_⟩
          intro res' h
          injection h with h1 h2
          exact absurd h2 hne
        | cont r' tr =>
          obtain ⟨h1, h2⟩ := hstep.1 r' tr hso
          have ih := runLoop_bound env maxIter f r'
          have hred : runLoop env true maxIter (f + 1) r =
              ((runLoop env true maxIter f r').1,
                tr ++ (runLoop env true maxIter f r').2) := by
            conv_lhs => rw [runLoop]
            rw [if_neg hguard]
            simp [hso]
          have harith : (maxIter - r'.state.iterations).toNat + 1 =
              (maxIter - r.state.iterations).toNat := by
            rw [h2]
            omega
          rw [hred]
          dsimp only
          refine ⟨?_, ?_, ?_⟩
          · rw [countProviderCalls_append, h1]
            have := ih.1
            omega
          · intro hfe
            exact ih.2.1 (by omega)
          · intro res h
            rw [countProviderCalls_append, h1, ih.2.2 res h]
            omega

/-- C2: with `max_iterations = N > 0` and the iteration limit not disabled,
the run makes at most `N` provider calls, terminates (no fuel exhaustion at
fuel `≥ N`), and an iteration-limit error is returned exactly when all `N`
iterations were spent (the partial state rides along in the returned
result). -/
theorem C2_iteration_cap (env : LoopEnv) (req : OrchestratorRequest)
    (N fuel : Nat) (hN : req.maxIterations = (N : Int)) (hpos : 0 < N)
    (hdis : req.disableIterationLimit = false) :
    countProviderCalls (runAgentLoop env req fuel).2 ≤ N ∧
    (N ≤ fuel → (runAgentLoop env req fuel).1 ≠ .fuelOut) ∧
    (∀ res, (runAgentLoop env req fuel).1 = .ret res (some .iterationLimit) →
      countProviderCalls (runAgentLoop env req fuel).2 = N) := by
  have hrun : runAgentLoop env req fuel =
      runLoop env true (N : Int) fuel (initRun req) := by
    simp [runAgentLoop, hdis, hN, hpos]
  have hb := runLoop_bound env (N : Int) fuel (initRun req)
  have hz : ((N : Int) - (initRun req).state.iterations).toNat = N := by
    simp [initRun, NewState]
  rw [hrun]
  rw [hz] at hb
  exact hb

/-- Witness for C2: a provider that always requests tools, cap `N = 2`. -/
theorem C2_iteration_cap_witness :
    (({ maxIterations := 2 } : OrchestratorRequest).maxIterations =
      ((2 : Nat) : Int)) ∧
    countProviderCalls (runAgentLoop witEnvCap { maxIterations := 2 } 2).2 ≤ 2 ∧
    (2 ≤ 2 → (runAgentLoop witEnvCap { maxIterations := 2 } 2).1 ≠ .fuelOut) ∧
    (∀ res, (runAgentLoop witEnvCap { maxIterations := 2 } 2).1 =
        .ret res (some .iterationLimit) →
      countProviderCalls (runAgentLoop witEnvCap { maxIterations := 2 } 2).2 = 2) :=
  ⟨rfl, C2_iteration_cap witEnvCap { maxIterations := 2 } 2 2 rfl (by decide) rfl⟩

/-! ## Claim C1: tool_use id uniqueness -/

theorem fixToolUseIDs_spec (gen : Nat → GoStr) (provP : GoStr → Prop)
    (hfresh : ∀ j, ¬ provP (gen j)) (hinj : ∀ j k, gen j = gen k → j = k) :
    ∀ (blocks : List ContentBlock) (seen : List GoStr) (mint : Nat),
      (∀ b ∈ blocks, b.type = contentTypeToolUse → b.id ≠ [] → provP b.id) →
      (∀ s ∈ seen, provP s ∨ ∃ j < mint, gen j = s) →
      (fixToolUseIDs gen blocks seen mint).2.1 =
        seen ++ blockToolUseIds (fixToolUseIDs gen blocks seen mint).1 ∧
      (∀ s ∈ (fixToolUseIDs gen blocks seen mint).2.1,
        provP s ∨ ∃ j < (fixToolUseIDs gen blocks seen mint).2.2, gen j = s) ∧
      (blockToolUseIds (fixToolUseIDs gen blocks seen mint).1).Nodup ∧
      (∀ x ∈ blockToolUseIds (fixToolUseIDs gen blocks seen mint).1, x ∉ seen)
  | [], seen, mint, _, hseen => by
    refine ⟨by simp [fixToolUseIDs, blockToolUseIds], ?_,
      by simp [fixToolUseIDs, blockToolUseIds],
      by simp [fixToolUseIDs, blockToolUseIds]⟩
    simpa [fixToolUseIDs] using hseen
  | b :: rest, seen, mint, hblocks, hseen => by
    have hrest : ∀ b' ∈ rest, b'.type = contentTypeToolUse → b'.id ≠ [] →
        provP b'.id := fun b' hb' => hblocks b' (List.mem_cons_of_mem _ hb')
    by_cases hbt : b.type = contentTypeToolUse
    · by_cases hneed : b.id = [] ∨ b.id ∈ seen
      · have hfx : fixToolUseIDs gen (b :: rest) seen mint =
            ({ b with id := gen mint } ::
              (fixToolUseIDs gen rest (seen ++ [gen mint]) (mint + 1)).1,
             (fixToolUseIDs gen rest (seen ++ [gen mint]) (mint + 1)).2) := by
          simp only [fixToolUseIDs]
          rw [if_pos hbt, if_pos hneed, if_pos hneed]
        have hseen' : ∀ s ∈ seen ++ [gen mint],
            provP s ∨ ∃ j < mint + 1, gen j = s := by
          intro s hs
          rcases List.mem_append.1 hs with h | h
          · rcases hseen s h with h' | ⟨j, hj, hje⟩
            · exact Or.inl h'
            · exact Or.inr ⟨j, Nat.lt_succ_of_lt hj, hje⟩
          · have hsg := List.mem_singleton.1 h
            subst hsg
            exact Or.inr ⟨mint, Nat.lt_succ_self mint, rfl⟩
        obtain ⟨ih1, ih2, ih3, ih4⟩ := fixToolUseIDs_spec gen provP hfresh hinj
          rest (seen ++ [gen mint]) (mint + 1) hrest hseen'
        rw [hfx]
        dsimp only
        have hcons : blockToolUseIds ({ b with id := gen mint } ::
            (fixToolUseIDs gen rest (seen ++ [gen mint]) (mint + 1)).1) =
            gen mint ::
              blockToolUseIds (fixToolUseIDs gen rest (seen ++ [gen mint]) (mint + 1)).1 := by
          simp [blockToolUseIds, hbt]
        rw [hcons]
        refine ⟨by rw [ih1]; simp, ih2, ?_, ?_⟩
        · refine List.nodup_cons.2 ⟨?_, ih3⟩
          intro hmem
          exact absurd (by simp : gen mint ∈ seen ++ [gen mint]) (ih4 _ hmem)
        · intro x hx hxs
          rcases List.mem_cons.1 hx with rfl | hx'
          · rcases hseen (gen mint) hxs with h' | ⟨j, hj, hje⟩
            · exact hfresh mint h'
            · exact absurd (hinj j mint hje) (by omega)
          · exact (ih4 x hx') (List.mem_append.2 (Or.inl hxs))
      · have hid : provP b.id := by
          push_neg at hneed
          exact hblocks b (List.mem_cons_self b rest) hbt hneed.1
        have hnotseen : b.id ∉ seen := by
          push_neg at hneed
          exact hneed.2
        have hfx : fixToolUseIDs gen (b :: rest) seen mint =
            ({ b with id := b.id } ::
              (fixToolUseIDs gen rest (seen ++ [b.id]) mint).1,
             (fixToolUseIDs gen rest (seen ++ [b.id]) mint).2) := by
          simp only [fixToolUseIDs]
          rw [if_pos hbt, if_neg hneed, if_neg hneed]
        have hseen' : ∀ s ∈ seen ++ [b.id],
            provP s ∨ ∃ j < mint, gen j = s := by
          intro s hs
          rcases List.mem_append.1 hs with h | h
          · exact hseen s h
          · have hsg := List.mem_singleton.1 h
            subst hsg
            exact Or.inl hid
        obtain ⟨ih1, ih2, ih3, ih4⟩ := fixToolUseIDs_spec gen provP hfresh hinj
          rest (seen ++ [b.id]) mint hrest hseen'
        rw [hfx]
        dsimp only
        have hcons : blockToolUseIds ({ b with id := b.id } ::
            (fixToolUseIDs gen rest (seen ++ [b.id]) mint).1) =
            b.id ::
              blockToolUseIds (fixToolUseIDs gen rest (seen ++ [b.id]) mint).1 := by
          simp [blockToolUseIds, hbt]
        rw [hcons]
        refine ⟨by rw [ih1]; simp, ih2, ?_, ?_⟩
        · refine List.nodup_cons.2 ⟨?_, ih3⟩
          intro hmem
          exact absurd (by simp : b.id ∈ seen ++ [b.id]) (ih4 _ hmem)
        · intro x hx hxs
          rcases List.mem_cons.1 hx with rfl | hx'
          · exact hnotseen hxs
          · exact (ih4 x hx') (List.mem_append.2 (Or.inl hxs))
    · have hfx : fixToolUseIDs gen (b :: rest) seen mint =
          (b :: (fixToolUseIDs gen rest seen mint).1,
           (fixToolUseIDs gen rest seen mint).2) := by
        simp only [fixToolUseIDs]
        rw [if_neg hbt]
      obtain ⟨ih1, ih2, ih3, ih4⟩ := fixToolUseIDs_spec gen provP hfresh hinj
        rest seen mint hrest hseen
      rw [hfx]
      dsimp only
      have hcons : blockToolUseIds (b :: (fixToolUseIDs gen rest seen mint).1) =
          blockToolUseIds (fixToolUseIDs gen rest seen mint).1 := by
        simp [blockToolUseIds, hbt]
      rw [hcons]
      exact ⟨ih1, ih2, ih3, ih4⟩

theorem traceIds_append (a b : List Event) :
    traceAssistantToolUseIds (a ++ b) =
      traceAssistantToolUseIds a ++ traceAssistantToolUseIds b := by
  simp [traceAssistantToolUseIds]

theorem traceIds_applyLoopInputs (r : LoopRun) (s f : List Message) :
    traceAssistantToolUseIds (applyLoopInputs r s f).2 = [] := by
  simp only [applyLoopInputs, traceAssistantToolUseIds]
  rw [List.flatMap_eq_nil_iff]
  intro e he
  simp only [List.mem_append] at he
  rcases he with ((h1 | h2) | h3) | h4
  · rcases List.mem_map.1 h1 with ⟨m, _, rfl⟩
    simp
  · revert h2
    split
    · simp
    · intro h2
      simp only [List.mem_singleton] at h2
      subst h2
      simp
  · rcases List.mem_map.1 h3 with ⟨m, _, rfl⟩
    simp
  · revert h4
    split
    · simp
    · intro h4
      simp only [List.mem_singleton] at h4
      subst h4
      simp

theorem traceIds_executeTools (env : LoopEnv) :
    ∀ (uses : List ContentBlock) (r : LoopRun),
      traceAssistantToolUseIds (executeToolsLoop env uses r).2.2.2.2.2 = []
  | [], r => by simp [executeToolsLoop, traceAssistantToolUseIds]
  | use :: rest, r => by
    cases hens : ensureToolAllowedByActiveSkill r.toolEnv use.name with
    | some e =>
      by_cases hf : (fetchLoopInputs env r).1 ≠ [] ∨ (fetchLoopInputs env r).2.1 ≠ []
      · simp only [executeToolsLoop, hens]
        rw [if_pos hf]
        simp [traceAssistantToolUseIds]
      · have ih := traceIds_executeTools env rest (fetchLoopInputs env r).2.2
        simp only [executeToolsLoop, hens]
        rw [if_neg hf]
        show traceAssistantToolUseIds (_ ++ _) = []
        rw [traceIds_append, ih]
        simp [traceAssistantToolUseIds]
    | none =>
      by_cases hreg : env.registryHas use.name = true
      · by_cases hf :
            (fetchLoopInputs env
              { r with execs := r.execs + 1,
                       toolEnv := env.envAfterExec r.execs r.toolEnv }).1 ≠ [] ∨
            (fetchLoopInputs env
              { r with execs := r.execs + 1,
                       toolEnv := env.envAfterExec r.execs r.toolEnv }).2.1 ≠ []
        · simp only [executeToolsLoop, hens, hreg, eq_self_iff_true, if_true]
          rw [if_pos hf]
          simp [traceAssistantToolUseIds]
        · have ih := traceIds_executeTools env rest
            (fetchLoopInputs env
              { r with execs := r.execs + 1,
                       toolEnv := env.envAfterExec r.execs r.toolEnv }).2.2
          simp only [executeToolsLoop, hens, hreg, eq_self_iff_true, if_true]
          rw [if_neg hf]
          show traceAssistantToolUseIds (_ ++ _) = []
          rw [traceIds_append, ih]
          simp [traceAssistantToolUseIds]
      · by_cases hf : (fetchLoopInputs env r).1 ≠ [] ∨ (fetchLoopInputs env r).2.1 ≠ []
        · simp only [executeToolsLoop, hens, hreg, Bool.false_eq_true, if_false]
          rw [if_pos hf]
          simp [traceAssistantToolUseIds]
        · have ih := traceIds_executeTools env rest (fetchLoopInputs env r).2.2
          simp only [executeToolsLoop, hens, hreg, Bool.false_eq_true, if_false]
          rw [if_neg hf]
          show traceAssistantToolUseIds (_ ++ _) = []
          rw [traceIds_append, ih]
          simp [traceAssistantToolUseIds]

theorem hexDigitChar_mem (n : Nat) : hexDigitChar n ∈ "0123456789abcdef".data := by
  unfold hexDigitChar
  by_cases h : n < 16
  · interval_cases n <;> decide
  · rw [List.getD_eq_default]
    · decide
    · simpa using Nat.le_of_not_lt h

theorem hexEncode_length : ∀ bs : List Nat, (hexEncode bs).length = 2 * bs.length
  | [] => rfl
  | b :: rest => by
    simp [hexEncode, hexEncode_length rest]
    omega

theorem hexEncode_mem : ∀ (bs : List Nat), ∀ c ∈ hexEncode bs,
    c ∈ "0123456789abcdef".data
  | [], c, hc => absurd hc (by simp [hexEncode])
  | b :: rest, c, hc => by
    simp only [hexEncode, List.mem_cons] at hc
    rcases hc with rfl | rfl | hc
    · exact hexDigitChar_mem _
    · exact hexDigitChar_mem _
    · exact hexEncode_mem rest c hc

theorem applyLoopInputs_seen (r : LoopRun) (s f : List Message) :
    (applyLoopInputs r s f).1.seen = r.seen := rfl

theorem applyLoopInputs_mint (r : LoopRun) (s f : List Message) :
    (applyLoopInputs r s f).1.mint = r.mint := rfl

theorem traceIds_added (m : Message) :
    traceAssistantToolUseIds [Event.added m] = [] := rfl

theorem step_maxTokens_shape (env : LoopEnv) (r : LoopRun)
    (cm pm lm : List Message) (resp : AgentResponse)
    (hc : env.cancelled r.state.iterations = false)
    (htr : env.transform (r.state.iterations + 1) r.state.messages = some (cm, pm))
    (hcv : env.convert (r.state.iterations + 1) cm = some lm)
    (hpv : env.provider r.calls lm = some resp)
    (hsr1 : resp.stopReason ≠ stopReasonEndTurn)
    (hsr2 : resp.stopReason = stopReasonMaxTokens) :
    stepIteration env r =
      (let fixed := fixToolUseIDs env.gen resp.content r.seen r.mint
       let respFixed : AgentResponse := { resp with content := fixed.1 }
       let st1 : LoopState :=
         { messages := pm ++ [respFixed.toMessage],
           iterations := r.state.iterations + 1,
           toolCalls := r.state.toolCalls,
           lastResponse := respFixed,
           inputTokens := r.state.inputTokens + resp.usage.inputTokens,
           outputTokens := r.state.outputTokens + resp.usage.outputTokens }
       let tr0 := [Event.providerCall, Event.added respFixed.toMessage,
         Event.cbMessage respFixed.toMessage]
       StepOut.finished st1.toResult (some .maxTokens) tr0) := by
  unfold stepIteration
  rw [hc]
  simp only [Bool.false_eq_true, if_false, LoopState.incrementIteration]
  simp only [LoopState.updateUsage, LoopState.addMessage, AgentResponse.toMessage]
  rw [htr]
  simp only []
  rw [hcv]
  simp only []
  rw [hpv]
  simp only [if_neg hsr1, if_pos hsr2]

theorem step_other_shape (env : LoopEnv) (r : LoopRun)
    (cm pm lm : List Message) (resp : AgentResponse)
    (hc : env.cancelled r.state.iterations = false)
    (htr : env.transform (r.state.iterations + 1) r.state.messages = some (cm, pm))
    (hcv : env.convert (r.state.iterations + 1) cm = some lm)
    (hpv : env.provider r.calls lm = some resp)
    (hsr1 : resp.stopReason ≠ stopReasonEndTurn)
    (hsr2 : resp.stopReason ≠ stopReasonMaxTokens)
    (htool : ¬(resp.stopReason = stopReasonToolUse ∨
      AgentResponse.hasToolUse
        { resp with content := (fixToolUseIDs env.gen resp.content r.seen r.mint).1 }
        = true)) :
    stepIteration env r =
      (let fixed := fixToolUseIDs env.gen resp.content r.seen r.mint
       let respFixed : AgentResponse := { resp with content := fixed.1 }
       let st1 : LoopState :=
         { messages := pm ++ [respFixed.toMessage],
           iterations := r.state.iterations + 1,
           toolCalls := r.state.toolCalls,
           lastResponse := respFixed,
           inputTokens := r.state.inputTokens + resp.usage.inputTokens,
           outputTokens := r.state.outputTokens + resp.usage.outputTokens }
       let r1 : LoopRun :=
         { state := st1, seen := fixed.2.1, mint := fixed.2.2,
           calls := r.calls + 1, fetches := r.fetches, execs := r.execs,
           toolEnv := r.toolEnv }
       let tr0 := [Event.providerCall, Event.added respFixed.toMessage,
         Event.cbMessage respFixed.toMessage]
       StepOut.cont r1 tr0) := by
  unfold stepIteration
  rw [hc]
  simp only [Bool.false_eq_true, if_false, LoopState.incrementIteration]
  simp only [LoopState.updateUsage, LoopState.addMessage, AgentResponse.toMessage]
  rw [htr]
  simp only []
  rw [hcv]
  simp only []
  rw [hpv]
  simp only [if_neg hsr1, if_neg hsr2, if_neg htool]

theorem step_ids (env : LoopEnv) (r : LoopRun)
    (hinj : ∀ j k, env.gen j = env.gen k → j = k)
    (hfresh : ∀ j, ¬ providerToolUseId env (env.gen j))
    (hseen : ∀ s ∈ r.seen, providerToolUseId env s ∨ ∃ j < r.mint, env.gen j = s) :
    (∀ res e tr, stepIteration env r = .finished res e tr →
      (traceAssistantToolUseIds tr).Nodup ∧
      ∀ x ∈ traceAssistantToolUseIds tr, x ∉ r.seen) ∧
    (∀ r' tr, stepIteration env r = .cont r' tr →
      (traceAssistantToolUseIds tr).Nodup ∧
      (∀ x ∈ traceAssistantToolUseIds tr, x ∉ r.seen) ∧
      r'.seen = r.seen ++ traceAssistantToolUseIds tr ∧
      (∀ s ∈ r'.seen, providerToolUseId env s ∨ ∃ j < r'.mint, env.gen j = s)) := by
  by_cases hca : env.cancelled r.state.iterations = true
  · have hstep : stepIteration env r =
        .finished r.state.toResult (some .cancelled) [] := by
      unfold stepIteration
      rw [hca]
      rw [if_pos rfl]
    constructor
    · intro res e tr h
      rw [hstep] at h
      injection h with h1 h2 h3
      subst h3
      exact ⟨by simp [traceAssistantToolUseIds], by simp [traceAssistantToolUseIds]⟩
    · intro r' tr h
      rw [hstep] at h
      exact StepOut.noConfusion h
  · rw [Bool.not_eq_true] at hca
    cases htr : env.transform (r.state.iterations + 1) r.state.messages with
    | none =>
      have hstep : stepIteration env r =
          .finished r.state.incrementIteration.toResult (some .transformFailed) [] := by
        unfold stepIteration
        rw [hca]
        simp only [Bool.false_eq_true, if_false, LoopState.incrementIteration]
        rw [htr]
      constructor
      · intro res e tr h
        rw [hstep] at h
        injection h with h1 h2 h3
        subst h3
        exact ⟨by simp [traceAssistantToolUseIds], by simp [traceAssistantToolUseIds]⟩
      · intro r' tr h
        rw [hstep] at h
        exact StepOut.noConfusion h
    | some cp =>
      obtain ⟨cm, pm⟩ := cp
      cases hcv : env.convert (r.state.iterations + 1) cm with
      | none =>
        have hstep : stepIteration env r =
            .finished ({ r.state.incrementIteration with messages := pm } : LoopState).toResult
              (some .convertFailed) [] := by
          unfold stepIteration
          rw [hca]
          simp only [Bool.false_eq_true, if_false, LoopState.incrementIteration]
          rw [htr]
          simp only []
          rw [hcv]
        constructor
        · intro res e tr h
          rw [hstep] at h
          injection h with h1 h2 h3
          subst h3
          exact ⟨by simp [traceAssistantToolUseIds],
            by simp [traceAssistantToolUseIds]⟩
        · intro r' tr h
          rw [hstep] at h
          exact StepOut.noConfusion h
      | some lm =>
        cases hpv : env.provider r.calls lm with
        | none =>
          have hstep : stepIteration env r =
              .finished ({ r.state.incrementIteration with messages := pm } : LoopState).toResult
                (some .providerFailed) [Event.providerCall] := by
            unfold stepIteration
            rw [hca]
            simp only [Bool.false_eq_true, if_false, LoopState.incrementIteration]
            rw [htr]
            simp only []
            rw [hcv]
            simp only []
            rw [hpv]
          constructor
          · intro res e tr h
            rw [hstep] at h
            injection h with h1 h2 h3
            subst h3
            exact ⟨by simp [traceAssistantToolUseIds],
              by simp [traceAssistantToolUseIds]⟩
          · intro r' tr h
            rw [hstep] at h
            exact StepOut.noConfusion h
        | some resp =>
          have hblocks : ∀ b ∈ resp.content, b.type = contentTypeToolUse →
              b.id ≠ [] → providerToolUseId env b.id :=
            fun b hb ht hne => ⟨r.calls, lm, resp, b, hpv, hb, ht, rfl⟩
          obtain ⟨hf1, hf2, hf3, hf4⟩ := fixToolUseIDs_spec env.gen
            (providerToolUseId env) hfresh hinj resp.content r.seen r.mint
            hblocks hseen
          have htrace0 : traceAssistantToolUseIds
              [Event.providerCall,
               Event.added (AgentResponse.toMessage
                 { resp with
                   content := (fixToolUseIDs env.gen resp.content r.seen r.mint).1 }),
               Event.cbMessage (AgentResponse.toMessage
                 { resp with
                   content := (fixToolUseIDs env.gen resp.content r.seen r.mint).1 })] =
              blockToolUseIds (fixToolUseIDs env.gen resp.content r.seen r.mint).1 := by
            simp [traceAssistantToolUseIds, msgToolUseIds, AgentResponse.toMessage,
              blockToolUseIds]
          by_cases hsr : resp.stopReason = stopReasonEndTurn
          · rw [step_endTurn_shape env r cm pm lm resp hca htr hcv hpv hsr]
            simp only []
            set fixed := fixToolUseIDs env.gen resp.content r.seen r.mint with hfixd
            set respFixed : AgentResponse := { resp with content := fixed.1 } with hrf
            set st1 : LoopState :=
              { messages := pm ++ [respFixed.toMessage],
                iterations := r.state.iterations + 1,
                toolCalls := r.state.toolCalls,
                lastResponse := respFixed,
                inputTokens := r.state.inputTokens + resp.usage.inputTokens,
                outputTokens := r.state.outputTokens + resp.usage.outputTokens }
              with hst1
            set r1 : LoopRun :=
              { state := st1, seen := fixed.2.1, mint := fixed.2.2,
                calls := r.calls + 1, fetches := r.fetches + 1, execs := r.execs,
                toolEnv := r.toolEnv } with hr1
            set sIn := (match env.steeringRaw r.fetches with
              | none => []
              | some ms => normalizeLoopInputMessages ms) with hsIn
            set fIn := (match env.followUpRaw r.fetches with
              | none => []
              | some ms => normalizeLoopInputMessages ms) with hfIn
            by_cases hfe : sIn ≠ [] ∨ fIn ≠ []
            · simp only [if_pos hfe]
              constructor
              · intro res e tr h
                exact StepOut.noConfusion h
              · intro r' tr h
                injection h with h1 h2
                subst h1
                subst h2
                refine ⟨?_, ?_, ?_, ?_⟩
                · rw [traceIds_append, htrace0, traceIds_applyLoopInputs]
                  simpa using hf3
                · rw [traceIds_append, htrace0, traceIds_applyLoopInputs]
                  intro x hx
                  exact hf4 x (by simpa using hx)
                · rw [applyLoopInputs_seen, traceIds_append, htrace0,
                    traceIds_applyLoopInputs, hr1]
                  simpa using hf1
                · intro s hs
                  rw [applyLoopInputs_seen, hr1] at hs
                  rw [applyLoopInputs_mint, hr1]
                  dsimp only at hs ⊢
                  exact hf2 s hs
            · simp only [if_neg hfe]
              constructor
              · intro res e tr h
                injection h with h1 h2 h3
                subst h3
                exact ⟨by rw [htrace0]; exact hf3, by rw [htrace0]; exact hf4⟩
              · intro r' tr h
                exact StepOut.noConfusion h
          · by_cases hsr2 : resp.stopReason = stopReasonMaxTokens
            · rw [step_maxTokens_shape env r cm pm lm resp hca htr hcv hpv hsr hsr2]
              simp only []
              constructor
              · intro res e tr h
                injection h with h1 h2 h3
                subst h3
                exact ⟨by rw [htrace0]; exact hf3, by rw [htrace0]; exact hf4⟩
              · intro r' tr h
                exact StepOut.noConfusion h
            · by_cases htool : resp.stopReason = stopReasonToolUse ∨
                  AgentResponse.hasToolUse
                    { resp with
                      content := (fixToolUseIDs env.gen resp.content r.seen r.mint).1 }
                    = true
              · rw [step_toolUse_shape env r cm pm lm resp hca htr hcv hpv hsr
                  hsr2 htool]
                simp only []
                set fixed := fixToolUseIDs env.gen resp.content r.seen r.mint
                  with hfixd
                set respFixed : AgentResponse := { resp with content := fixed.1 }
                  with hrf
                set st1 : LoopState :=
                  { messages := pm ++ [respFixed.toMessage],
                    iterations := r.state.iterations + 1,
                    toolCalls := r.state.toolCalls,
                    lastResponse := respFixed,
                    inputTokens := r.state.inputTokens + resp.usage.inputTokens,
                    outputTokens := r.state.outputTokens + resp.usage.outputTokens }
                  with hst1
                set r1 : LoopRun :=
                  { state := st1, seen := fixed.2.1, mint := fixed.2.2,
                    calls := r.calls + 1, fetches := r.fetches, execs := r.execs,
                    toolEnv := r.toolEnv } with hr1
                set out := executeToolsLoop env respFixed.getToolUses r1 with hout
                have hseenout : out.2.2.2.2.1.seen = fixed.2.1 := by
                  rw [hout, (executeTools_preserves env _ r1).2.1, hr1]
                have hmintout : out.2.2.2.2.1.mint = fixed.2.2 := by
                  rw [hout, (executeTools_preserves env _ r1).2.2.1, hr1]
                have htrE : traceAssistantToolUseIds out.2.2.2.2.2 = [] := by
                  rw [hout]
                  exact traceIds_executeTools env _ r1
                by_cases hint : out.2.2.2.1 = true
                · simp only [hint, eq_self_iff_true, if_true]
                  constructor
                  · intro res e tr h
                    exact StepOut.noConfusion h
                  · intro r' tr h
                    injection h with h1 h2
                    subst h1
                    subst h2
                    refine ⟨?_, ?_, ?_, ?_⟩
                    · simp only [traceIds_append, htrace0, htrE, traceIds_added,
                        traceIds_applyLoopInputs, List.append_nil, List.nil_append]
                      exact hf3
                    · simp only [traceIds_append, htrace0, htrE, traceIds_added,
                        traceIds_applyLoopInputs, List.append_nil, List.nil_append]
                      exact hf4
                    · rw [applyLoopInputs_seen]
                      dsimp only
                      rw [hseenout]
                      simp only [traceIds_append, htrace0, htrE, traceIds_added,
                        traceIds_applyLoopInputs, List.append_nil, List.nil_append]
                      exact hf1
                    · intro s hs
                      rw [applyLoopInputs_seen] at hs
                      dsimp only at hs
                      rw [hseenout] at hs
                      rw [applyLoopInputs_mint]
                      dsimp only
                      rw [hmintout]
                      exact hf2 s hs
                · rw [Bool.not_eq_true] at hint
                  simp only [hint, Bool.false_eq_true, if_false]
                  constructor
                  · intro res e tr h
                    exact StepOut.noConfusion h
                  · intro r' tr h
                    injection h with h1 h2
                    subst h1
                    subst h2
                    refine ⟨?_, ?_, ?_, ?_⟩
                    · simp only [traceIds_append, htrace0, htrE, traceIds_added,
                        List.append_nil, List.nil_append]
                      exact hf3
                    · simp only [traceIds_append, htrace0, htrE, traceIds_added,
                        List.append_nil, List.nil_append]
                      exact hf4
                    · dsimp only
                      rw [hseenout]
                      simp only [traceIds_append, htrace0, htrE, traceIds_added,
                        List.append_nil, List.nil_append]
                      exact hf1
                    · intro s hs
                      dsimp only at hs ⊢
                      rw [hseenout] at hs
                      rw [hmintout]
                      exact hf2 s hs
              · rw [step_other_shape env r cm pm lm resp hca htr hcv hpv hsr
                  hsr2 htool]
                simp only []
                constructor
                · intro res e tr h
                  exact StepOut.noConfusion h
                · intro r' tr h
                  injection h with h1 h2
                  subst h1
                  subst h2
                  refine ⟨?_, ?_, ?_, ?_⟩
                  · rw [htrace0]
                    exact hf3
                  · rw [htrace0]
                    exact hf4
                  · dsimp only
                    rw [htrace0]
                    exact hf1
                  · intro s hs
                    dsimp only at hs ⊢
                    exact hf2 s hs

theorem runLoop_ids (env : LoopEnv)
    (hinj : ∀ j k, env.gen j = env.gen k → j = k)
    (hfresh : ∀ j, ¬ providerToolUseId env (env.gen j)) :
    ∀ (fuel : Nat) (hasLimit : Bool) (maxIter : Int) (r : LoopRun),
      (∀ s ∈ r.seen, providerToolUseId env s ∨ ∃ j < r.mint, env.gen j = s) →
      (traceAssistantToolUseIds (runLoop env hasLimit maxIter fuel r).2).Nodup ∧
      ∀ x ∈ traceAssistantToolUseIds (runLoop env hasLimit maxIter fuel r).2,
        x ∉ r.seen
  | fuel, hasLimit, maxIter, r, hseen => by
    by_cases hguard : hasLimit = true ∧ maxIter ≤ (r.state.iterations : Int)
    · have hred : runLoop env hasLimit maxIter fuel r =
          (.ret r.state.toResult (some .iterationLimit), []) := by
        unfold runLoop
        rw [if_pos hguard]
      rw [hred]
      exact ⟨by simp [traceAssistantToolUseIds], by simp [traceAssistantToolUseIds]⟩
    · cases fuel with
      | zero =>
        have hred : runLoop env hasLimit maxIter 0 r = (.fuelOut, []) := by
          unfold runLoop
          rw [if_neg hguard]
        rw [hred]
        exact ⟨by simp [traceAssistantToolUseIds],
          by simp [traceAssistantToolUseIds]⟩
      | succ f =>
        cases hso : stepIteration env r with
        | finished res e tr =>
          have hred : runLoop env hasLimit maxIter (f + 1) r = (.ret res e, tr) := by
            conv_lhs => rw [runLoop]
            rw [if_neg hguard]
            simp [hso]
          rw [hred]
          exact (step_ids env r hinj hfresh hseen).1 res e tr hso
        | cont r' tr =>
          obtain ⟨h1, h2, h3, h4⟩ := (step_ids env r hinj hfresh hseen).2 r' tr hso
          obtain ⟨ih1, ih2⟩ := runLoop_ids env hinj hfresh f hasLimit maxIter r' h4
          have hred : runLoop env hasLimit maxIter (f + 1) r =
              ((runLoop env hasLimit maxIter f r').1,
                tr ++ (runLoop env hasLimit maxIter f r').2) := by
            conv_lhs => rw [runLoop]
            rw [if_neg hguard]
            simp [hso]
          rw [hred]
          dsimp only
          rw [traceIds_append]
          constructor
          · rw [List.nodup_append]
            refine ⟨h1, ih1, ?_⟩
            intro x hx hx2
            exact ih2 x hx2 (by rw [h3]; exact List.mem_append.2 (Or.inr hx))
          · intro x hx
            rcases List.mem_append.1 hx with hx1 | hx2
            · exact h2 x hx1
            · intro hxs
              exact ih2 x hx2 (by rw [h3]; exact List.mem_append.2 (Or.inl hxs))

/-- C1: in every run of the agent loop (with a fresh-id generator that is
injective and never collides with provider-supplied ids, as `crypto/rand`
ids are), the `tool_use` ids of all assistant messages appended to the loop
state are pairwise distinct; a `tool_use` block whose id is empty or
already seen is repaired to the next minted id and any other block keeps
its id, with the (possibly repaired) id recorded as seen; a minted
`generateToolUseID` over 12 random bytes is `tool_` followed by 24
lowercase hex characters. -/
theorem C1_tool_use_id_uniqueness (env : LoopEnv) (req : OrchestratorRequest)
    (fuel : Nat)
    (hinj : ∀ j k, env.gen j = env.gen k → j = k)
    (hfresh : ∀ j, ¬ providerToolUseId env (env.gen j)) :
    (traceAssistantToolUseIds (runAgentLoop env req fuel).2).Nodup ∧
    (∀ (gen : Nat → GoStr) (b : ContentBlock) (rest : List ContentBlock)
        (seen : List GoStr) (mint : Nat),
      b.type = contentTypeToolUse →
      (b.id = [] ∨ b.id ∈ seen) →
      fixToolUseIDs gen (b :: rest) seen mint =
        ({ b with id := gen mint } ::
          (fixToolUseIDs gen rest (seen ++ [gen mint]) (mint + 1)).1,
         (fixToolUseIDs gen rest (seen ++ [gen mint]) (mint + 1)).2)) ∧
    (∀ (gen : Nat → GoStr) (b : ContentBlock) (rest : List ContentBlock)
        (seen : List GoStr) (mint : Nat),
      b.type = contentTypeToolUse →
      ¬(b.id = [] ∨ b.id ∈ seen) →
      fixToolUseIDs gen (b :: rest) seen mint =
        (b :: (fixToolUseIDs gen rest (seen ++ [b.id]) mint).1,
         (fixToolUseIDs gen rest (seen ++ [b.id]) mint).2)) ∧
    (∀ bytes : List Nat, bytes.length = 12 →
      generateToolUseID bytes = "tool_".data ++ hexEncode bytes ∧
      startsWithStr (generateToolUseID bytes) "tool_".data = true ∧
      (hexEncode bytes).length = 24 ∧
      (∀ c ∈ hexEncode bytes, c ∈ "0123456789abcdef".data)) := by
  refine ⟨?_, ?_, ?_, ?_⟩
  · simp only [runAgentLoop]
    exact (runLoop_ids env hinj hfresh fuel _ req.maxIterations (initRun req)
      (by intro s hs; simp [initRun] at hs)).1
  · intro gen b rest seen mint hbt hneed
    simp only [fixToolUseIDs]
    rw [if_pos hbt, if_pos hneed, if_pos hneed]
  · intro gen b rest seen mint hbt hneed
    simp only [fixToolUseIDs]
    rw [if_pos hbt, if_neg hneed, if_neg hneed]
  · intro bytes hlen
    refine ⟨rfl, startsWithStr_append_self _ _, ?_, hexEncode_mem bytes⟩
    rw [hexEncode_length, hlen]

/-- Witness for C1: the duplicate-id environment `witEnv`, whose generator
`g, ga, gaa, …` is injective and never equals a provider id, plus a
concrete 12-byte minted id. -/
theorem C1_tool_use_id_uniqueness_witness :
    (traceAssistantToolUseIds
      (runAgentLoop witEnv { maxIterations := 3 } 3).2).Nodup ∧
    generateToolUseID [0, 1, 2, 3, 4, 5, 6, 7, 8, 9, 10, 255] =
      "tool_".data ++ hexEncode [0, 1, 2, 3, 4, 5, 6, 7, 8, 9, 10, 255] ∧
    (hexEncode [0, 1, 2, 3, 4, 5, 6, 7, 8, 9, 10, 255]).length = 24 := by
  have hinjW : ∀ j k, witEnv.gen j = witEnv.gen k → j = k := by
    intro j k h
    have hl := congrArg List.length h
    simp [witEnv] at hl
    omega
  have hfreshW : ∀ j, ¬ providerToolUseId witEnv (witEnv.gen j) := by
    intro j h
    obtain ⟨k, msgs, resp, b, hpr, hb, ht, hid⟩ := h
    by_cases hk : k = 0
    · subst hk
      have hres : witToolResp = resp := by simpa [witEnv] using hpr
      subst hres
      simp only [witToolResp, List.mem_cons, List.not_mem_nil, or_false] at hb
      rcases hb with rfl | rfl
      all_goals
        dsimp only at hid
        rw [show witEnv.gen j = 'g' :: List.replicate j 'a' from rfl] at hid
        injection hid with h1 h2
        exact absurd h1 (by decide)
    · have hres : witEndResp = resp := by simpa [witEnv, hk] using hpr
      subst hres
      simp only [witEndResp, List.mem_cons, List.not_mem_nil, or_false] at hb
      subst hb
      dsimp only at ht
      exact absurd ht (by decide)
  have h := C1_tool_use_id_uniqueness witEnv { maxIterations := 3 } 3 hinjW hfreshW
  exact ⟨h.1, (h.2.2.2 [0, 1, 2, 3, 4, 5, 6, 7, 8, 9, 10, 255] (by decide)).1,
    (h.2.2.2 [0, 1, 2, 3, 4, 5, 6, 7, 8, 9, 10, 255] (by decide)).2.2.1⟩

/-! ## Claim C4: truncation window closure -/

theorem head_mem_of_head_eq {α : Type} {l : List α} {a : α}
    (h : l.head? = some a) : a ∈ l := by
  cases l with
  | nil => exact absurd h (by simp)
  | cons x t =>
    simp only [List.head?] at h
    injection h with h
    rw [← h]
    exact List.mem_cons_self x t

theorem mem_take_one_of_lt (l : List Message) (h : 0 < l.length) :
    l[0] ∈ l.take 1 := by
  rcases l with _ | ⟨a, t⟩
  · simp at h
  · simp

theorem mem_drop_of_getElem (l : List Message) (k i : Nat) (hki : k ≤ i)
    (h : i < l.length) : l[i] ∈ l.drop k := by
  refine List.mem_iff_getElem.2 ⟨i - k, ?_, ?_⟩
  · rw [List.length_drop]
    omega
  · rw [List.getElem_drop]
    congr 1
    omega

theorem mem_toolUseIDsOfMsg_of_has (m : Message) (tid : GoStr)
    (hhas : msgHasToolUse m tid = true) (hne : tid ≠ []) :
    tid ∈ toolUseIDsOfMsg m := by
  unfold msgHasToolUse at hhas
  rcases List.any_eq_true.1 hhas with ⟨blk, hblk, hp⟩
  simp only [Bool.and_eq_true, decide_eq_true_eq] at hp
  refine List.mem_filterMap.2 ⟨blk, hblk, ?_⟩
  have hcond : blk.type = contentTypeToolUse ∧ blk.id ≠ [] :=
    ⟨hp.1, by rw [hp.2]; exact hne⟩
  rw [if_pos hcond, hp.2]

theorem has_of_mem_toolUseIDsOfMsg (m : Message) (tid : GoStr)
    (h : tid ∈ toolUseIDsOfMsg m) : msgHasToolUse m tid = true := by
  unfold toolUseIDsOfMsg at h
  rcases List.mem_filterMap.1 h with ⟨blk, hblk, hf⟩
  by_cases hcond : blk.type = contentTypeToolUse ∧ blk.id ≠ []
  · rw [if_pos hcond] at hf
    injection hf with hf
    unfold msgHasToolUse
    rw [List.any_eq_true]
    exact ⟨blk, hblk, by simp [hcond.1, hf]⟩
  · rw [if_neg hcond] at hf
    exact absurd hf (by simp)

theorem passFindChange_some_bounds (messages : List Message) (k j : Nat)
    (h : passFindChange messages k = some j) : 1 ≤ j ∧ j < k := by
  unfold passFindChange at h
  simp only [] at h
  have hmem := head_mem_of_head_eq h
  rcases List.mem_filterMap.1 hmem with ⟨b, hb, hf⟩
  by_cases hcond : b.type = contentTypeToolResult ∧ b.toolUseID ≠ [] ∧
      b.toolUseID ∉ collectToolUseIDs messages k true
  · rw [if_pos hcond] at hf
    unfold findDepIdx at hf
    have hjmem := List.mem_of_find?_eq_some hf
    rw [List.mem_reverse, List.mem_range'_1] at hjmem
    omega
  · rw [if_neg hcond] at hf
    exact absurd hf (by simp)

theorem truncLoop_ge_one (messages : List Message) :
    ∀ (fuel k : Nat), 1 ≤ k → 1 ≤ truncLoop messages fuel k
  | 0, k, hk => hk
  | fuel + 1, k, hk => by
    show 1 ≤ truncLoop messages (fuel + 1) k
    unfold truncLoop
    cases hp : passFindChange messages k with
    | none => exact hk
    | some j =>
      exact truncLoop_ge_one messages fuel j
        (passFindChange_some_bounds messages k j hp).1

theorem truncLoop_reaches_fix (messages : List Message) :
    ∀ (fuel k : Nat), 1 ≤ k → k ≤ fuel + 1 →
      passFindChange messages (truncLoop messages fuel k) = none
  | 0, k, hk, hle => by
    have hk1 : k = 1 := by omega
    subst hk1
    show passFindChange messages 1 = none
    cases hp : passFindChange messages 1 with
    | none => rfl
    | some j =>
      have hb := passFindChange_some_bounds messages 1 j hp
      omega
  | fuel + 1, k, hk, hle => by
    show passFindChange messages (truncLoop messages (fuel + 1) k) = none
    unfold truncLoop
    cases hp : passFindChange messages k with
    | none => exact hp
    | some j =>
      have hb := passFindChange_some_bounds messages k j hp
      exact truncLoop_reaches_fix messages fuel j hb.1 (by omega)

theorem suffixClosure_of_passNone (messages : List Message) (k : Nat)
    (hk : 1 ≤ k) (hnone : passFindChange messages k = none) :
    suffixClosure messages k := by
  intro b hb hbt hbn hex
  by_contra hnot
  have hnil : (((messages.drop k).flatMap (fun m => m.content)).filterMap fun bb =>
      if bb.type = contentTypeToolResult ∧ bb.toolUseID ≠ [] ∧
          bb.toolUseID ∉ collectToolUseIDs messages k true then
        findDepIdx messages k bb.toolUseID
      else none) = [] := by
    unfold passFindChange at hnone
    simp only [] at hnone
    exact List.head?_eq_none_iff.1 hnone
  have hfb := (List.filterMap_eq_nil_iff.1 hnil) b hb
  rw [if_pos ⟨hbt, hbn, hnot⟩] at hfb
  obtain ⟨m, hm, hhas⟩ := hex
  obtain ⟨i, hi, hieq⟩ := List.mem_iff_getElem.1 hm
  by_cases hi0 : i = 0
  · apply hnot
    unfold collectToolUseIDs
    rw [if_pos rfl]
    refine List.mem_append.2 (Or.inl ?_)
    refine List.mem_flatMap.2 ⟨m, ?_, mem_toolUseIDsOfMsg_of_has m _ hhas hbn⟩
    subst hi0
    have := mem_take_one_of_lt messages hi
    rw [hieq] at this
    exact this
  · by_cases hik : k ≤ i
    · apply hnot
      unfold collectToolUseIDs
      rw [if_pos rfl]
      refine List.mem_append.2 (Or.inr ?_)
      refine List.mem_flatMap.2 ⟨m, ?_, mem_toolUseIDsOfMsg_of_has m _ hhas hbn⟩
      have := mem_drop_of_getElem messages k i hik hi
      rw [hieq] at this
      exact this
    · have hsome : (findDepIdx messages k b.toolUseID).isSome = true := by
        unfold findDepIdx
        rw [List.find?_isSome]
        refine ⟨i, ?_, ?_⟩
        · rw [List.mem_reverse, List.mem_range'_1]
          omega
        · rw [List.getD_eq_getElem _ _ hi, hieq]
          exact hhas
      rw [hfb] at hsome
      simp at hsome

/-- C4: when the input exceeds `maxMessages` (and its length is within the
99-message reach of the 100-pass budget), `truncateMessages` returns the
first message followed by a contiguous suffix `messages[k:]` with `k ≥ 1`,
and the window is closed under tool_use/tool_result dependencies for every
`tool_result` inside the suffix window: its referenced `tool_use`, if
present anywhere in the input, is retained (in the first message or the
window).  `tool_result` blocks of the always-kept first message itself are
not protected (see the counterexample). -/
theorem C4_truncation_window_closure (messages : List Message)
    (maxMessages : Nat) (hgt : maxMessages < messages.length)
    (hbound : messages.length ≤ maxMessages + 99) :
    ∃ k, 1 ≤ k ∧
      truncateMessages messages maxMessages =
        messages.take 1 ++ messages.drop k ∧
      suffixClosure messages k ∧
      (∀ b ∈ (messages.drop k).flatMap (fun m => m.content),
        b.type = contentTypeToolResult → b.toolUseID ≠ [] →
        (∃ m ∈ messages, msgHasToolUse m b.toolUseID = true) →
        ∃ m ∈ messages.take 1 ++ messages.drop k,
          msgHasToolUse m b.toolUseID = true) := by
  have hk01 : 1 ≤ max (messages.length - maxMessages + 1) 1 :=
    le_max_right _ 1
  have hk0b : max (messages.length - maxMessages + 1) 1 ≤ 100 + 1 := by
    omega
  have hkf1 : 1 ≤ truncLoop messages 100
      (max (messages.length - maxMessages + 1) 1) :=
    truncLoop_ge_one messages 100 _ hk01
  have hnone := truncLoop_reaches_fix messages 100
    (max (messages.length - maxMessages + 1) 1) hk01 hk0b
  have hcl := suffixClosure_of_passNone messages
    (truncLoop messages 100 (max (messages.length - maxMessages + 1) 1))
    hkf1 hnone
  refine ⟨truncLoop messages 100 (max (messages.length - maxMessages + 1) 1),
    hkf1, ?_, hcl, ?_⟩
  · simp only [truncateMessages, if_neg (by omega : ¬ messages.length ≤ maxMessages)]
  · intro b hb hbt hbn hex
    have hmem := hcl b hb hbt hbn hex
    unfold collectToolUseIDs at hmem
    rw [if_pos rfl] at hmem
    rcases List.mem_append.1 hmem with h1 | h2
    · rcases List.mem_flatMap.1 h1 with ⟨m, hm, hid⟩
      exact ⟨m, List.mem_append.2 (Or.inl hm),
        has_of_mem_toolUseIDsOfMsg m _ hid⟩
    · rcases List.mem_flatMap.1 h2 with ⟨m, hm, hid⟩
      exact ⟨m, List.mem_append.2 (Or.inr hm),
        has_of_mem_toolUseIDsOfMsg m _ hid⟩

/-- C4 counterexample: with `maxMessages = 2` the input `cex4Msgs` is cut
to `[first, last]`; the first message's `tool_result` references a
`tool_use` that exists in the input but is dropped, so the claimed closure
over all retained messages fails. -/
theorem C4_counterexample :
    2 < cex4Msgs.length ∧
    (∃ m ∈ cex4Msgs, msgHasToolUse m "x".data = true) ∧
    truncateMessages cex4Msgs 2 =
      [cex4Msgs.getD 0 default, cex4Msgs.getD 3 default] ∧
    ¬ retainedClosure cex4Msgs (truncateMessages cex4Msgs 2) := by decide

/-- Witness for C4 at a concrete input where the window is extended back
to the `tool_use` needed by the retained `tool_result`. -/
theorem C4_truncation_window_closure_witness :
    2 < wit4Msgs.length ∧ wit4Msgs.length ≤ 2 + 99 ∧
    ∃ k, 1 ≤ k ∧
      truncateMessages wit4Msgs 2 = wit4Msgs.take 1 ++ wit4Msgs.drop k ∧
      suffixClosure wit4Msgs k ∧
      (∀ b ∈ (wit4Msgs.drop k).flatMap (fun m => m.content),
        b.type = contentTypeToolResult → b.toolUseID ≠ [] →
        (∃ m ∈ wit4Msgs, msgHasToolUse m b.toolUseID = true) →
        ∃ m ∈ wit4Msgs.take 1 ++ wit4Msgs.drop k,
          msgHasToolUse m b.toolUseID = true) :=
  ⟨by decide, by decide,
    C4_truncation_window_closure wit4Msgs 2 (by decide) (by decide)⟩

/-! ## Claim C8: instruction sections and the byte cap -/

theorem appendWithinLimit_eq_cap (parts : List GoStr) (sec : GoStr)
    (remaining : Int) (h : remaining ≤ 0) :
    appendWithinLimit parts sec remaining = (parts, remaining, false, true) := by
  unfold appendWithinLimit
  rw [if_pos h]

theorem appendWithinLimit_eq_fits (parts : List GoStr) (sec : GoStr)
    (remaining : Int) (h0 : ¬ remaining ≤ 0)
    (h1 : (if parts ≠ [] then (2 : Int) else 0) + sec.length ≤ remaining) :
    appendWithinLimit parts sec remaining =
      (parts ++ [sec],
       remaining - ((if parts ≠ [] then (2 : Int) else 0) + sec.length),
       true, false) := by
  unfold appendWithinLimit
  rw [if_neg h0]
  rw [if_pos h1]

theorem appendWithinLimit_eq_cut (parts : List GoStr) (sec : GoStr)
    (remaining : Int) (h0 : ¬ remaining ≤ 0)
    (h1 : ¬ ((if parts ≠ [] then (2 : Int) else 0) + sec.length ≤ remaining))
    (h2 : 0 < remaining - (if parts ≠ [] then (2 : Int) else 0)) :
    appendWithinLimit parts sec remaining =
      (parts ++ [sec.take
          (remaining - (if parts ≠ [] then (2 : Int) else 0)).toNat],
       remaining - ((if parts ≠ [] then (2 : Int) else 0) +
         (remaining - (if parts ≠ [] then (2 : Int) else 0))),
       true, true) := by
  unfold appendWithinLimit
  rw [if_neg h0]
  rw [if_neg h1]
  rw [if_pos h2]
  have hlt : ¬ ((sec.length : Int) <
      remaining - (if parts ≠ [] then (2 : Int) else 0)) := by omega
  rw [if_neg hlt]

theorem appendWithinLimit_eq_noRoom (parts : List GoStr) (sec : GoStr)
    (remaining : Int) (h0 : ¬ remaining ≤ 0)
    (h1 : ¬ ((if parts ≠ [] then (2 : Int) else 0) + sec.length ≤ remaining))
    (h2 : remaining - (if parts ≠ [] then (2 : Int) else 0) ≤ 0) :
    appendWithinLimit parts sec remaining = (parts, remaining, false, true) := by
  unfold appendWithinLimit
  rw [if_neg h0]
  rw [if_neg h1]
  rw [if_neg (by omega : ¬ 0 < remaining -
    (if parts ≠ [] then (2 : Int) else 0))]

theorem appendWithinLimit_parts_cases (parts : List GoStr) (sec : GoStr)
    (remaining : Int) :
    (appendWithinLimit parts sec remaining).1 = parts ∨
    (appendWithinLimit parts sec remaining).1 = parts ++ [sec] ∨
    ∃ n, n < sec.length ∧
      (appendWithinLimit parts sec remaining).1 = parts ++ [sec.take n] := by
  by_cases h0 : remaining ≤ 0
  · rw [appendWithinLimit_eq_cap parts sec remaining h0]
    exact Or.inl rfl
  · by_cases h1 : (if parts ≠ [] then (2 : Int) else 0) + sec.length ≤ remaining
    · rw [appendWithinLimit_eq_fits parts sec remaining h0 h1]
      exact Or.inr (Or.inl rfl)
    · by_cases h2 : 0 < remaining - (if parts ≠ [] then (2 : Int) else 0)
      · rw [appendWithinLimit_eq_cut parts sec remaining h0 h1 h2]
        refine Or.inr (Or.inr ⟨_, ?_, rfl⟩)
        omega
      · rw [appendWithinLimit_eq_noRoom parts sec remaining h0 h1 (by omega)]
        exact Or.inl rfl

theorem loadDirStep_parts (fs : InstrFS) (candidates : List GoStr)
    (acc : LoadAcc) (dir : GoStr) (sec relPath resolved : GoStr)
    (hfc : findCandidate fs acc.seen candidates dir =
      some (sec, relPath, resolved)) :
    (loadDirStep fs candidates acc dir).parts =
      (appendWithinLimit acc.parts sec acc.remaining).1 := by
  unfold loadDirStep
  rw [hfc]
  simp only []
  by_cases hap : (appendWithinLimit acc.parts sec acc.remaining).2.2.1 = true
  · rw [if_pos hap]
  · rw [if_neg hap]

theorem loadDirs_sections (fs : InstrFS) (candidates : List GoStr) :
    ∀ (dirs : List GoStr) (acc : LoadAcc),
      ∃ sel newParts, List.Sublist sel dirs ∧
        (loadDirs fs candidates dirs acc).parts = acc.parts ++ newParts ∧
        List.Forall₂ (SectionOfDir fs candidates) newParts sel
  | [], acc =>
    ⟨[], [], List.Sublist.refl [], by simp [loadDirs], List.Forall₂.nil⟩
  | dir :: rest, acc => by
    by_cases hbr : ((loadDirStep fs candidates acc dir).truncated ||
        decide ((loadDirStep fs candidates acc dir).remaining ≤ 0)) = true
    · have hred : loadDirs fs candidates (dir :: rest) acc =
          loadDirStep fs candidates acc dir := by
        unfold loadDirs
        simp only []
        rw [if_pos hbr]
      cases hfc : findCandidate fs acc.seen candidates dir with
      | none =>
        have hstep : loadDirStep fs candidates acc dir = acc := by
          unfold loadDirStep
          rw [hfc]
        refine ⟨[], [], List.nil_sublist _, ?_, List.Forall₂.nil⟩
        rw [hred, hstep]
        simp
      | some trip =>
        obtain ⟨sec, relPath, resolved⟩ := trip
        have hstep := loadDirStep_parts fs candidates acc dir sec relPath
          resolved hfc
        rcases appendWithinLimit_parts_cases acc.parts sec acc.remaining with
          hap | hap | ⟨n, hn, hap⟩
        · refine ⟨[], [], List.nil_sublist _, ?_, List.Forall₂.nil⟩
          rw [hred, hstep, hap]
          simp
        · refine ⟨[dir], [sec], (List.nil_sublist rest).cons₂ dir, ?_, ?_⟩
          · rw [hred, hstep, hap]
          · exact List.Forall₂.cons
              ⟨acc.seen, sec, relPath, resolved, hfc, Or.inl rfl⟩
              List.Forall₂.nil
        · refine ⟨[dir], [sec.take n], (List.nil_sublist rest).cons₂ dir,
            ?_, ?_⟩
          · rw [hred, hstep, hap]
          · exact List.Forall₂.cons
              ⟨acc.seen, sec, relPath, resolved, hfc, Or.inr ⟨n, hn, rfl⟩⟩
              List.Forall₂.nil
    · have hred : loadDirs fs candidates (dir :: rest) acc =
          loadDirs fs candidates rest (loadDirStep fs candidates acc dir) := by
        conv_lhs => rw [loadDirs]
        rw [if_neg hbr]
      obtain ⟨sel, newParts, hsub, hparts, hfa⟩ :=
        loadDirs_sections fs candidates rest (loadDirStep fs candidates acc dir)
      cases hfc : findCandidate fs acc.seen candidates dir with
      | none =>
        have hstep : loadDirStep fs candidates acc dir = acc := by
          unfold loadDirStep
          rw [hfc]
        refine ⟨sel, newParts, List.Sublist.cons dir hsub, ?_, hfa⟩
        rw [hred, hparts, hstep]
      | some trip =>
        obtain ⟨sec, relPath, resolved⟩ := trip
        have hstep := loadDirStep_parts fs candidates acc dir sec relPath
          resolved hfc
        rcases appendWithinLimit_parts_cases acc.parts sec acc.remaining with
          hap | hap | ⟨n, hn, hap⟩
        · refine ⟨sel, newParts, List.Sublist.cons dir hsub, ?_, hfa⟩
          rw [hred, hparts, hstep, hap]
        · refine ⟨dir :: sel, sec :: newParts, hsub.cons₂ dir, ?_, ?_⟩
          · rw [hred, hparts, hstep, hap]
            simp
          · exact List.Forall₂.cons
              ⟨acc.seen, sec, relPath, resolved, hfc, Or.inl rfl⟩ hfa
        · refine ⟨dir :: sel, sec.take n :: newParts, hsub.cons₂ dir, ?_, ?_⟩
          · rw [hred, hparts, hstep, hap]
            simp
          · exact List.Forall₂.cons
              ⟨acc.seen, sec, relPath, resolved, hfc, Or.inr ⟨n, hn, rfl⟩⟩ hfa

/-- C8: the loaded content is the blank-line join of a list of parts that
corresponds one-to-one, in root-to-leaf order, to a subsequence of the
directory path (at most one section per directory: the first readable,
non-blank, not-yet-seen candidate, full or cut to a strict prefix by the
byte cap), so a deeper directory's section always appears after a
shallower one's; `appendWithinLimit` appends the full section when it
fits, emits a partial section and marks truncation only when room remains
after the separator, and on a cap hit without such room emits nothing
while still marking truncation (this last case corrects the claim's
`a partial section is emitted`). -/
theorem C8_sections_and_cap (fs : InstrFS) (dirs candidates : List GoStr)
    (maxBytes : Int) :
    (∃ sel parts, List.Sublist sel dirs ∧
      (instrLoad fs dirs candidates maxBytes).content = joinParts parts ∧
      List.Forall₂ (SectionOfDir fs candidates) parts sel) ∧
    (∀ (parts : List GoStr) (sec : GoStr) (remaining : Int),
      remaining ≤ 0 →
      appendWithinLimit parts sec remaining = (parts, remaining, false, true)) ∧
    (∀ (parts : List GoStr) (sec : GoStr) (remaining : Int),
      ¬ remaining ≤ 0 →
      (if parts ≠ [] then (2 : Int) else 0) + sec.length ≤ remaining →
      appendWithinLimit parts sec remaining =
        (parts ++ [sec],
         remaining - ((if parts ≠ [] then (2 : Int) else 0) + sec.length),
         true, false)) ∧
    (∀ (parts : List GoStr) (sec : GoStr) (remaining : Int),
      ¬ remaining ≤ 0 →
      ¬ ((if parts ≠ [] then (2 : Int) else 0) + sec.length ≤ remaining) →
      0 < remaining - (if parts ≠ [] then (2 : Int) else 0) →
      appendWithinLimit parts sec remaining =
        (parts ++ [sec.take
            (remaining - (if parts ≠ [] then (2 : Int) else 0)).toNat],
         remaining - ((if parts ≠ [] then (2 : Int) else 0) +
           (remaining - (if parts ≠ [] then (2 : Int) else 0))),
         true, true)) ∧
    (∀ (parts : List GoStr) (sec : GoStr) (remaining : Int),
      ¬ remaining ≤ 0 →
      ¬ ((if parts ≠ [] then (2 : Int) else 0) + sec.length ≤ remaining) →
      remaining - (if parts ≠ [] then (2 : Int) else 0) ≤ 0 →
      appendWithinLimit parts sec remaining =
        (parts, remaining, false, true)) := by
  refine ⟨?_, appendWithinLimit_eq_cap, appendWithinLimit_eq_fits,
    appendWithinLimit_eq_cut, appendWithinLimit_eq_noRoom⟩
  obtain ⟨sel, newParts, hsub, hparts, hfa⟩ :=
    loadDirs_sections fs candidates dirs
      { parts := [], sources := [], seen := [],
        remaining := if maxBytes ≤ 0 then 32 * 1024 else maxBytes,
        truncated := false }
  refine ⟨sel, newParts, hsub, ?_, hfa⟩
  simp only [instrLoad]
  rw [hparts]
  simp

/-- C8 counterexample: with a 10-byte cap the second directory's section
hits the cap with no room after the separator: the result is marked
truncated but no partial section is emitted (content and sources cover
`d1` only), and `appendWithinLimit` at the corresponding state appends
nothing. -/
theorem C8_counterexample :
    (instrLoad cex8FS ["d1".data, "d2".data] ["A".data] 10).truncated = true ∧
    (instrLoad cex8FS ["d1".data, "d2".data] ["A".data] 10).content =
      "## d1/A\nx".data ∧
    (instrLoad cex8FS ["d1".data, "d2".data] ["A".data] 10).sources =
      ["d1/A".data] ∧
    appendWithinLimit ["## d1/A\nx".data] "## d2/A\ny".data 1 =
      (["## d1/A\nx".data], 1, false, true) := by decide

/-- Witness for C8: a 13-byte cap leaves room after the separator, so the
second section is cut to a partial section; the section correspondence is
instantiated at the same two-directory filesystem. -/
theorem C8_sections_and_cap_witness :
    (∃ sel parts, List.Sublist sel ["d1".data, "d2".data] ∧
      (instrLoad cex8FS ["d1".data, "d2".data] ["A".data] 13).content =
        joinParts parts ∧
      List.Forall₂ (SectionOfDir cex8FS ["A".data]) parts sel) ∧
    appendWithinLimit ["## d1/A\nx".data] "## d2/A\ny".data 4 =
      (["## d1/A\nx".data] ++ [("## d2/A\ny".data).take
          ((4 : Int) - (if (["## d1/A\nx".data] : List GoStr) ≠ []
            then (2 : Int) else 0)).toNat],
       4 - ((if (["## d1/A\nx".data] : List GoStr) ≠ [] then (2 : Int) else 0) +
         (4 - (if (["## d1/A\nx".data] : List GoStr) ≠ []
            then (2 : Int) else 0))),
       true, true) :=
  ⟨(C8_sections_and_cap cex8FS ["d1".data, "d2".data] ["A".data] 13).1,
   (C8_sections_and_cap cex8FS ["d1".data, "d2".data] ["A".data] 13).2.2.2.1
     ["## d1/A\nx".data] "## d2/A\ny".data 4
     (by decide) (by decide) (by decide)⟩

end AgentCore
